import Mathlib

/-!
Shallow embedding of the STAC item normalization pipeline of
`scripts/main.py`, `scripts/helpers/processing.py` and
`scripts/helpers/processing_ard.py`.

Python values flowing through the pipeline (parsed JSON documents, numpy
values, shapely geometries, pandas timestamps) are modelled by the inductive
type `JValue`; Python dicts are insertion-ordered association lists, Python
`dict[key] = v` is `pyInsert` (replace the value in place when the key is
present, append otherwise), machine floats are idealized as rationals, and
code that can raise is modelled in the `Except` monad.  External library
calls (`shapely.geometry.shape`, `pd.to_datetime`, `urllib.parse.urljoin`,
`json.dumps`) are modelled by executable stand-ins restricted to the input
shapes the catalogs deliver; each stand-in's doc comment says so.
-/

set_option autoImplicit false
set_option maxHeartbeats 1000000

namespace SarStac

/-- A numeric numpy ndarray: a rectangular tree of numbers.  `ndarray.tolist()`
turns it into nested native lists of native numbers. -/
inductive NpTree where
  | leaf (q : ℚ)
  | node (children : List NpTree)
  deriving Repr

/-- A Python runtime value as seen by the pipeline: JSON scalars and
containers, tuples, numpy arrays and scalars, shapely geometries (kept
abstract as their coordinate list) and pandas timestamps (kept abstract as
the source text they were parsed from). -/
inductive JValue where
  | null
  | bool (b : Bool)
  | num (q : ℚ)
  | str (s : String)
  | arr (xs : List JValue)
  | tup (xs : List JValue)
  | obj (kvs : List (String × JValue))
  | npArr (t : NpTree)
  | npNum (q : ℚ)
  | geom (pts : List (ℚ × ℚ))
  | timestamp (s : String)
  deriving Repr

mutual

/-- Structural equality on `NpTree`, feeding its `DecidableEq` instance. -/
def NpTree.beq : NpTree → NpTree → Bool
  | .leaf a, .leaf b => a = b
  | .node as, .node bs => NpTree.beqList as bs
  | _, _ => false

def NpTree.beqList : List NpTree → List NpTree → Bool
  | [], [] => true
  | a :: as, b :: bs => NpTree.beq a b && NpTree.beqList as bs
  | _, _ => false

end

/-- `NpTree.beq` decides equality (stated as a `def` since the `DecidableEq`
instance right below consumes it). -/
def NpTree.beqIff : ∀ a b, (NpTree.beq a b = true) ↔ a = b :=
  NpTree.beq.induct
    (fun a b => (NpTree.beq a b = true) ↔ a = b)
    (fun as bs => (NpTree.beqList as bs = true) ↔ as = bs)
    (fun a b => by simp [NpTree.beq])
    (fun as bs ih => by simpa [NpTree.beq] using ih)
    (fun t x h1 h2 => by cases t <;> cases x <;> simp_all [NpTree.beq])
    (by simp [NpTree.beqList])
    (fun a as b bs ih1 ih2 => by simp [NpTree.beqList, ih1, ih2])
    (fun t x h1 h2 => by
      cases t with
      | nil =>
          cases x with
          | nil => exact (h1 rfl rfl).elim
          | cons b bs => simp [NpTree.beqList]
      | cons a as =>
          cases x with
          | nil => simp [NpTree.beqList]
          | cons b bs => exact (h2 a as b bs rfl rfl).elim)

instance : DecidableEq NpTree := fun a b => decidable_of_iff _ (NpTree.beqIff a b)

mutual

/-- Structural equality on `JValue`, feeding its `DecidableEq` instance. -/
def JValue.beq : JValue → JValue → Bool
  | .null, .null => true
  | .bool a, .bool b => a = b
  | .num a, .num b => a = b
  | .str a, .str b => a = b
  | .arr as, .arr bs => JValue.beqList as bs
  | .tup as, .tup bs => JValue.beqList as bs
  | .obj as, .obj bs => JValue.beqPairs as bs
  | .npArr a, .npArr b => a = b
  | .npNum a, .npNum b => a = b
  | .geom a, .geom b => a = b
  | .timestamp a, .timestamp b => a = b
  | _, _ => false

def JValue.beqList : List JValue → List JValue → Bool
  | [], [] => true
  | a :: as, b :: bs => JValue.beq a b && JValue.beqList as bs
  | _, _ => false

def JValue.beqPairs : List (String × JValue) → List (String × JValue) → Bool
  | [], [] => true
  | (k, v) :: as, (k', v') :: bs => decide (k = k') && JValue.beq v v' && JValue.beqPairs as bs
  | _, _ => false

end

/-- `JValue.beq` decides equality (stated as a `def` since the `DecidableEq`
instance right below consumes it). -/
def JValue.beqIff : ∀ a b, (JValue.beq a b = true) ↔ a = b :=
  JValue.beq.induct
    (fun a b => (JValue.beq a b = true) ↔ a = b)
    (fun as bs => (JValue.beqPairs as bs = true) ↔ as = bs)
    (fun as bs => (JValue.beqList as bs = true) ↔ as = bs)
    (by simp [JValue.beq])
    (fun a b => by simp [JValue.beq])
    (fun a b => by simp [JValue.beq])
    (fun a b => by simp [JValue.beq])
    (fun as bs ih => by simpa [JValue.beq] using ih)
    (fun as bs ih => by simpa [JValue.beq] using ih)
    (fun as bs ih => by simpa [JValue.beq] using ih)
    (fun a b => by simp [JValue.beq])
    (fun a b => by simp [JValue.beq])
    (fun a b => by simp [JValue.beq])
    (fun a b => by simp [JValue.beq])
    (fun t x h1 h2 h3 h4 h5 h6 h7 h8 h9 h10 h11 => by
      cases t <;> cases x <;> simp_all [JValue.beq])
    (by simp [JValue.beqList])
    (fun a as b bs ih1 ih2 => by simp [JValue.beqList, ih1, ih2])
    (fun t x h1 h2 => by
      cases t with
      | nil =>
          cases x with
          | nil => exact (h1 rfl rfl).elim
          | cons b bs => simp [JValue.beqList]
      | cons a as =>
          cases x with
          | nil => simp [JValue.beqList]
          | cons b bs => exact (h2 a as b bs rfl rfl).elim)
    (by simp [JValue.beqPairs])
    (fun k v as k' v' bs ih1 ih2 => by simp [JValue.beqPairs, ih1, ih2])
    (fun t x h1 h2 => by
      cases t with
      | nil =>
          cases x with
          | nil => exact (h1 rfl rfl).elim
          | cons q qs => simp [JValue.beqPairs]
      | cons p ps =>
          obtain ⟨k, v⟩ := p
          cases x with
          | nil => simp [JValue.beqPairs]
          | cons q qs =>
              obtain ⟨k2, v2⟩ := q
              exact (h2 k v ps k2 v2 qs rfl rfl).elim)

instance : DecidableEq JValue := fun a b => decidable_of_iff _ (JValue.beqIff a b)

instance {ε α : Type} [DecidableEq ε] [DecidableEq α] : DecidableEq (Except ε α) := fun x y =>
  match x, y with
  | .ok a, .ok b => if h : a = b then .isTrue (by rw [h]) else .isFalse (by simp [h])
  | .error e, .error f => if h : e = f then .isTrue (by rw [h]) else .isFalse (by simp [h])
  | .ok _, .error _ => .isFalse (by simp)
  | .error _, .ok _ => .isFalse (by simp)

/-- A Python dict as the pipeline sees it: an insertion-ordered list of
key/value bindings. -/
abbrev Record := List (String × JValue)

/-- Python truthiness (`if value:`) for the value kinds the pipeline meets. -/
def pyTruthy : JValue → Bool
  | .null => false
  | .bool b => b
  | .num q => q ≠ 0
  | .str s => s ≠ ""
  | .arr xs => !xs.isEmpty
  | .tup xs => !xs.isEmpty
  | .obj kvs => !kvs.isEmpty
  | .npArr _ => true
  | .npNum q => q ≠ 0
  | .geom _ => true
  | .timestamp _ => true

/-- Python `a or b`. -/
def pyOr (a b : JValue) : JValue := if pyTruthy a then a else b

/-- First value stored under `key` (Python dict lookup; dict keys are unique
in Python, so first = only). -/
def getVal : Record → String → Option JValue
  | [], _ => none
  | (k, v) :: rest, key => if k = key then some v else getVal rest key

/-- Python `d.get(key, default)`: the default applies only when the key is
absent (a stored `None` is returned as `None`). -/
def pyGetD (d : Record) (key : String) (default : JValue) : JValue :=
  (getVal d key).getD default

/-- Python `d[key] = v`: replace the value in place when the key is present,
append the pair otherwise. -/
def pyInsert (d : Record) (key : String) (v : JValue) : Record :=
  if d.any (fun p => p.1 = key) then
    d.map (fun p => if p.1 = key then (p.1, v) else p)
  else
    d ++ [(key, v)]

/-- Fold `pyInsert` over a list of pairs: Python `{**base, **kvs}` semantics
(later entries override earlier ones). -/
def pyInsertAll (base : Record) (kvs : Record) : Record :=
  kvs.foldl (fun acc p => pyInsert acc p.1 p.2) base

/-- Python `d.pop(key, None)`: the dict with the binding of `key` removed. -/
def popKey (d : Record) (key : String) : Record :=
  d.filter (fun p => p.1 ≠ key)

/-- Whether the dict binds `key` (Python `key in d`). -/
def hasKey (d : Record) (key : String) : Bool :=
  d.any (fun p => p.1 = key)

/-- `stac_item.get(key, default)` where the receiver must itself be a dict;
Python raises `AttributeError` on anything else. -/
def jGetD (item : JValue) (key : String) (default : JValue) : Except String JValue :=
  match item with
  | .obj kvs => .ok (pyGetD kvs key default)
  | _ => .error "AttributeError: object has no attribute get"

mutual

/-- `ndarray.tolist()`: nested native lists of native numbers. -/
def npToList : NpTree → JValue
  | .leaf q => .num q
  | .node cs => .arr (npToListMany cs)

def npToListMany : List NpTree → List JValue
  | [] => []
  | c :: cs => npToList c :: npToListMany cs

end

mutual

/-- `normalize_value_for_parquet` (processing.py:10-36): numpy arrays become
lists, numpy scalars become native numbers, dicts and lists/tuples are
normalized recursively, everything else passes through unchanged. -/
def normalize : JValue → JValue
  | .null => .null
  | .npArr t => npToList t
  | .npNum q => .num q
  | .obj kvs => .obj (normalizePairs kvs)
  | .arr xs => .arr (normalizeList xs)
  | .tup xs => .arr (normalizeList xs)
  | .bool b => .bool b
  | .num q => .num q
  | .str s => .str s
  | .geom g => .geom g
  | .timestamp s => .timestamp s

def normalizeList : List JValue → List JValue
  | [] => []
  | x :: xs => normalize x :: normalizeList xs

def normalizePairs : List (String × JValue) → List (String × JValue)
  | [] => []
  | (k, v) :: rest => (k, normalize v) :: normalizePairs rest

end

mutual

/-- Whether a value is plain JSON data (the only values the pipeline ever
hands to `json.dumps`; `json.dumps` raises `TypeError` outside this set). -/
def jsonPure : JValue → Bool
  | .null => true
  | .bool _ => true
  | .num _ => true
  | .str _ => true
  | .arr xs => jsonPureList xs
  | .obj kvs => jsonPurePairs kvs
  | .tup _ => false
  | .npArr _ => false
  | .npNum _ => false
  | .geom _ => false
  | .timestamp _ => false

def jsonPureList : List JValue → Bool
  | [] => true
  | x :: xs => jsonPure x && jsonPureList xs

def jsonPurePairs : List (String × JValue) → Bool
  | [] => true
  | (_, v) :: rest => jsonPure v && jsonPurePairs rest

end

/-- Decimal-or-fraction text for a rational; stand-in for the number tokens
`json.dumps` emits. -/
def numText (q : ℚ) : String :=
  toString q.num ++ (if q.den = 1 then "" else "/" ++ toString q.den)

mutual

/-- Executable stand-in for `json.dumps`.  On plain JSON data (`jsonPure`)
it emits a JSON-shaped text (string escaping elided); the real `json.dumps`
raises `TypeError` on anything else, modelled here by a distinctive
placeholder token that no theorem relies on -- every use in the pipeline is
guarded by `jsonPure` hypotheses.  The theorems only ever use that the
output is a string, never its text. -/
def jsonDumps : JValue → String
  | .null => "null"
  | .bool b => if b then "true" else "false"
  | .num q => numText q
  | .str s => "\"" ++ s ++ "\""
  | .arr xs => "[" ++ jsonDumpsList xs ++ "]"
  | .tup xs => "[" ++ jsonDumpsList xs ++ "]"
  | .obj kvs => "\x7b" ++ jsonDumpsPairs kvs ++ "\x7d"
  | .npArr _ => "<TypeError>"
  | .npNum q => numText q
  | .geom _ => "<TypeError>"
  | .timestamp s => "<TypeError:" ++ s ++ ">"

def jsonDumpsList : List JValue → String
  | [] => ""
  | [x] => jsonDumps x
  | x :: xs => jsonDumps x ++ ", " ++ jsonDumpsList xs

def jsonDumpsPairs : List (String × JValue) → String
  | [] => ""
  | [(k, v)] => "\"" ++ k ++ "\": " ++ jsonDumps v
  | (k, v) :: rest => "\"" ++ k ++ "\": " ++ jsonDumps v ++ ", " ++ jsonDumpsPairs rest

end

/-- Python `s.startswith(pre)` (list-level so the kernel can evaluate it). -/
def startsW (s pre : String) : Bool := pre.data.isPrefixOf s.data

/-- Python `s.endswith(sfx)` (list-level so the kernel can evaluate it). -/
def endsW (s sfx : String) : Bool := sfx.data.reverse.isPrefixOf s.data.reverse

/-- Python `needle in hay` on character lists: contiguous-substring test. -/
def hasSubList (needle : List Char) : List Char → Bool
  | [] => needle.isEmpty
  | c :: rest => needle.isPrefixOf (c :: rest) || hasSubList needle rest

/-- Python `needle in hay` on strings. -/
def strContains (hay needle : String) : Bool := hasSubList needle.data hay.data

/-- Everything after the first occurrence of character `c`, or `none`. -/
def afterChar (c : Char) : List Char → Option (List Char)
  | [] => none
  | x :: rest => if x = c then some rest else afterChar c rest

/-- Everything up to (excluding) the first occurrence of character `c`. -/
def uptoChar (c : Char) : List Char → List Char
  | [] => []
  | x :: rest => if x = c then [] else x :: uptoChar c rest

/-- Everything after the first occurrence of the substring `needle`
(assumed nonempty), or `none` when absent. -/
def afterSub (needle : List Char) : List Char → Option (List Char)
  | [] => none
  | c :: rest =>
      if needle.isPrefixOf (c :: rest) then some ((c :: rest).drop needle.length)
      else afterSub needle rest

/-- Everything up to (excluding) the first occurrence of the substring
`needle` (assumed nonempty). -/
def uptoSub (needle : List Char) : List Char → List Char
  | [] => []
  | c :: rest => if needle.isPrefixOf (c :: rest) then [] else c :: uptoSub needle rest

/-- Worker for `replaceSub`: while `skip > 0`, drop characters (they belong
to an occurrence already replaced); otherwise replace at each match.  Written
this way so recursion is structural on the subject list. -/
def replaceSubAux (old new : List Char) : Nat → List Char → List Char
  | _, [] => []
  | skip + 1, _ :: rest => replaceSubAux old new skip rest
  | 0, c :: rest =>
      if old.isPrefixOf (c :: rest) && !old.isEmpty then
        new ++ replaceSubAux old new (old.length - 1) rest
      else c :: replaceSubAux old new 0 rest

/-- Python `s.replace(old, new)`: replace every non-overlapping occurrence,
left to right. -/
def replaceSub (s old new : String) : String :=
  ⟨replaceSubAux old.data new.data 0 s.data⟩

/-- Python `s.count(c)` for a single-character needle. -/
def countChar (s : String) (c : Char) : Nat := s.data.count c

/-- Python `s.lower()` (ASCII, which is all the pipeline feeds it). -/
def lowerStr (s : String) : String := ⟨s.data.map Char.toLower⟩

/-- Python `s.replace(c1, c2)` for single characters. -/
def replaceChar (s : String) (c1 c2 : Char) : String :=
  ⟨s.data.map (fun c => if c = c1 then c2 else c)⟩

/-- Python `s[:n]`. -/
def takeStr (s : String) (n : Nat) : String := ⟨s.data.take n⟩

/-- Python `s.rsplit(".", 1)[0] if "." in s else s`: the filename stem. -/
def stemOf (s : String) : String :=
  match afterChar '.' s.data.reverse with
  | some rest => ⟨rest.reverse⟩
  | none => s

/-- Python `url.rsplit("/", 1)[0] + "/"`: the URL's directory with a
trailing slash (the whole string plus `/` when no slash occurs). -/
def dirBase (url : String) : String :=
  match afterChar '/' url.data.reverse with
  | some rest => String.mk rest.reverse ++ "/"
  | none => url ++ "/"

/-- Python `url.split("/")[-1]`: the last `/`-separated segment. -/
def lastSeg (url : String) : String :=
  ⟨(uptoChar '/' url.data.reverse).reverse⟩

/-- Python `s.split(sep)[1]` for a substring separator, meaningful when
`sep` occurs in `s` (the pipeline guards each use with an `in` check). -/
def splitPart1 (s sep : String) : String :=
  match afterSub sep.data s.data with
  | some rest => ⟨uptoSub sep.data rest⟩
  | none => s

/-- Python `s.split("_", 2)[2]`: everything after the second underscore,
or `none` when there are fewer than two underscores. -/
def afterSecondUnderscore (s : String) : Option String :=
  ((afterChar '_' s.data).bind (afterChar '_')).map String.mk

/-- Prefix-stripping step of `_extract_umbra_asset_name`
(processing.py:333-340): when the key starts with `20`/`19` and has at least
two underscores, drop the `timestamp_satellite_` prefix. -/
def stripUmbraTsSat (filename : String) : String :=
  if (startsW filename "20" || startsW filename "19") && countChar filename '_' ≥ 2 then
    match afterSecondUnderscore filename with
    | some rest => rest
    | none => filename
  else filename

/-- Suffix after `marker` in `stem`, lowercased, or `""` when the marker is
absent (the `split(marker)[1].lower() if marker in stem else ""` idiom of
`_extract_umbra_asset_name`). -/
def markerSuffix (stem marker : String) : String :=
  if strContains stem marker then lowerStr (splitPart1 stem marker) else ""

/-- Classification step of `_extract_umbra_asset_name`
(processing.py:342-377), applied after prefix stripping: ordered marker
checks (`STAC` on the full name, `ANALYSIS`/`CSI`/`SICD`/`SIDD`/`MM` on the
stem), then file-extension fallbacks, then a sanitized truncated stem. -/
def classifyUmbraDescriptor (f : String) : String :=
  let stem := stemOf f
  if strContains f "STAC" then "stac_metadata"
  else if strContains stem "ANALYSIS" then "analysis"
  else if strContains stem "CSI" then
    (let sfx := markerSuffix stem "CSI_"
     if sfx ≠ "" then "csi_" ++ sfx else "csi")
  else if strContains stem "SICD" then
    (let sfx := markerSuffix stem "SICD_"
     if sfx ≠ "" then "sicd_" ++ sfx else "sicd")
  else if strContains stem "SIDD" then
    (let sfx := markerSuffix stem "SIDD_"
     if sfx ≠ "" then "sidd_" ++ sfx else "sidd")
  else if endsW stem "MM" || strContains stem "_MM" then "mm_data"
  else if endsW f ".json" then "metadata"
  else if endsW f ".parquet" then "raw_data"
  else if endsW f ".cphd" then "cphd"
  else if endsW f ".zip" then "archive"
  else if endsW f ".tif" || endsW f ".tiff" then "geotiff"
  else if endsW f ".nitf" || endsW f ".ntf" then "nitf"
  else if endsW f ".xml" then "metadata_xml"
  else takeStr (replaceChar (replaceChar (lowerStr stem) '-' '_') ' ' '_') 50

/-- `_extract_umbra_asset_name` (processing.py:321-377) on string keys
(dict keys parsed from JSON are always strings, so the non-string
pass-through arm of the source cannot fire). -/
def extractUmbraAssetName (filename : String) : String :=
  classifyUmbraDescriptor (stripUmbraTsSat filename)

/-- Loop body of `normalize_umbra_asset_keys` (processing.py:308-316):
skip `None`/non-dict asset objects, store the rest under the extracted
name (a repeated extracted name overwrites the earlier entry). -/
def umbraKeysLoop : List (String × JValue) → Record → Record
  | [], acc => acc
  | (k, v) :: rest, acc =>
      match v with
      | .obj o => umbraKeysLoop rest (pyInsert acc (extractUmbraAssetName k) (.obj o))
      | _ => umbraKeysLoop rest acc

/-- `normalize_umbra_asset_keys` (processing.py:293-318). -/
def normalizeUmbraAssetKeys : JValue → JValue
  | .obj kvs => .obj (umbraKeysLoop kvs [])
  | _ => .obj []

/-- The ordered title-substring → public-filename-suffix table of
`fix_umbra_asset_hrefs` (processing.py:159-168); more specific combined
patterns come before single-word ones. -/
def titleToSuffix : List (String × String) :=
  [("CSI-SIDD", "_CSI-SIDD.nitf"),
   ("CSI_SIDD", "_CSI-SIDD.nitf"),
   ("CSI_TIFF", "_CSI.tif"),
   ("SICD_XML", "_SICD.nitf"),
   ("SICD", "_SICD.nitf"),
   ("SIDD", "_SIDD.nitf"),
   ("CPHD", "_CPHD.cphd"),
   ("TIFF", "_GEC.tif")]

/-- Python `needle in container` for a string needle: substring test on
strings, membership on lists/tuples, key test on dicts, `TypeError` on
non-containers. -/
def pyInOpE (needle : String) : JValue → Except String Bool
  | .str s => .ok (strContains s needle)
  | .arr xs => .ok (xs.contains (.str needle))
  | .tup xs => .ok (xs.contains (.str needle))
  | .obj kvs => .ok (hasKey kvs needle)
  | _ => .error "TypeError: argument of type is not iterable"

/-- First entry of `table` whose pattern occurs in `title`, in table order. -/
def firstMatchGo (title : JValue) : List (String × String) → Except String (Option String)
  | [] => .ok none
  | (pat, sfx) :: rest => do
      let b ← pyInOpE pat title
      if b then .ok (some sfx) else firstMatchGo title rest

/-- The `for title_pattern, suffix in title_to_suffix.items()` scan of
`fix_umbra_asset_hrefs` (processing.py:179-182). -/
def firstMatchE (title : JValue) : Except String (Option String) :=
  firstMatchGo title titleToSuffix

/-- Pure restatement of `firstMatchE` for string titles. -/
def firstMatchStrGo (t : String) : List (String × String) → Option String
  | [] => none
  | (pat, sfx) :: rest => if strContains t pat then some sfx else firstMatchStrGo t rest

/-- First suffix whose pattern occurs in the string title, in table order. -/
def firstMatchStr (t : String) : Option String := firstMatchStrGo t titleToSuffix

/-- Loop body of `fix_umbra_asset_hrefs` (processing.py:170-191): skip
non-dict assets, look the title up in the ordered table, keep only assets
with a reconstructed public href. -/
def fixUmbraLoop (base pat : String) : List (String × JValue) → Record → Except String Record
  | [], acc => .ok acc
  | (k, v) :: rest, acc =>
      match v with
      | .obj okvs => do
          let title := pyGetD okvs "title" (.str "")
          let m ← firstMatchE title
          match m with
          | some sfx =>
              fixUmbraLoop base pat rest (pyInsert acc k (.obj
                [("href", .str (base ++ pat ++ sfx)),
                 ("type", pyGetD okvs "type" .null),
                 ("roles", normalize (pyGetD okvs "roles" .null)),
                 ("title", title)]))
          | none => fixUmbraLoop base pat rest acc
      | _ => fixUmbraLoop base pat rest acc

/-- `fix_umbra_asset_hrefs` (processing.py:134-193). -/
def fixUmbraAssetHrefsE (assetsDict : JValue) (itemUrl : String) : Except String JValue :=
  match assetsDict with
  | .obj kvs => do
      let base := dirBase itemUrl
      let pat := replaceSub (lastSeg itemUrl) ".stac.v2.json" ""
      let fixed ← fixUmbraLoop base pat kvs []
      .ok (.obj fixed)
  | _ => .ok (.obj [])

/-- Loop body of the default branch of `compact_assets_dict`
(processing.py:412-424): skip `None`/non-dict assets, keep assets with a
truthy href, storing only href/type/normalized roles. -/
def compactLoop : List (String × JValue) → Record → Record
  | [], acc => acc
  | (k, v) :: rest, acc =>
      match v with
      | .obj okvs =>
          let href := pyGetD okvs "href" .null
          if pyTruthy href then
            compactLoop rest (pyInsert acc k (.obj
              [("href", href),
               ("type", pyGetD okvs "type" .null),
               ("roles", normalize (pyGetD okvs "roles" .null))]))
          else compactLoop rest acc
      | _ => compactLoop rest acc

/-- `compact_assets_dict` (processing.py:380-426): umbra assets get href
repair then key renaming; other providers get the compaction loop. -/
def compactAssetsDictE (assetsDict : JValue) (itemUrl provider : String) :
    Except String JValue :=
  match assetsDict with
  | .obj kvs =>
      if provider = "umbra" then do
        let fixed ← fixUmbraAssetHrefsE (.obj kvs) itemUrl
        .ok (normalizeUmbraAssetKeys fixed)
      else .ok (.obj (compactLoop kvs []))
  | _ => .ok (.obj [])

/-- The synthesized/rewritten self link of `fix_umbra_links`
(processing.py:228-234 and 244-250). -/
def selfLink (url : String) (t : JValue) : JValue :=
  .obj [("rel", .str "self"), ("href", .str url), ("type", t)]

/-- Loop body of `fix_umbra_links` (processing.py:216-239): skip non-dicts,
drop `collection`/`parent` links, rewrite each `self` link to the item URL,
normalize and keep everything else. -/
def fixUmbraLinksLoop (url : String) : List JValue → List JValue
  | [] => []
  | l :: rest =>
      match l with
      | .obj kvs =>
          let rel := pyGetD kvs "rel" .null
          if rel = .str "collection" ∨ rel = .str "parent" then
            fixUmbraLinksLoop url rest
          else if rel = .str "self" then
            selfLink url (pyGetD kvs "type" (.str "application/geo+json")) ::
              fixUmbraLinksLoop url rest
          else
            .obj (normalizePairs kvs) :: fixUmbraLinksLoop url rest
      | _ => fixUmbraLinksLoop url rest

/-- The `any(link.get("rel") == "self" ...)` check of `fix_umbra_links`
(processing.py:242). -/
def hasSelfLink (links : List JValue) : Bool :=
  links.any (fun l =>
    match l with
    | .obj kvs => pyGetD kvs "rel" .null = .str "self"
    | _ => false)

/-- `fix_umbra_links` (processing.py:196-252). -/
def fixUmbraLinks (linksList : JValue) (itemUrl : String) : List JValue :=
  let links := match linksList with | .arr xs => xs | _ => []
  let fixed := fixUmbraLinksLoop itemUrl links
  if hasSelfLink fixed then fixed
  else fixed ++ [selfLink itemUrl (.str "application/geo+json")]

/-- Executable stand-in for `urllib.parse.urljoin` covering the reference
forms these catalogs use: empty references return the base, absolute-path
references replace the base URL's path, other references resolve against the
base URL's directory (`..` segments are not collapsed). -/
def urljoin (base href : String) : String :=
  if href = "" then base
  else if startsW href "/" then
    (match afterSub "://".data base.data with
     | some rest => ⟨uptoSub "://".data base.data⟩ ++ "://" ++ ⟨uptoChar '/' rest⟩ ++ href
     | none => href)
  else dirBase base ++ href

/-- `resolve_link_href` (processing.py:115-131): absolute `http(s)`/`s3`
URIs pass through, anything else resolves against the base URL. -/
def resolveLinkHref (href baseUrl : String) : String :=
  if startsW href "http://" || startsW href "https://" then href
  else if startsW href "s3://" then href
  else urljoin baseUrl href

/-- Loop body of the default branch of `resolve_links`
(processing.py:277-288): skip non-dicts, normalize values, resolve the href
when present (a present non-string href makes `startswith` raise). -/
def defaultLinksLoop (itemUrl : String) : List JValue → Except String (List JValue)
  | [] => .ok []
  | l :: rest =>
      match l with
      | .obj kvs => do
          let resolved := normalizePairs kvs
          let withHref ←
            match getVal resolved "href" with
            | some (.str h) => .ok (pyInsert resolved "href" (.str (resolveLinkHref h itemUrl)))
            | some _ => .error "AttributeError: object has no attribute startswith"
            | none => .ok resolved
          let tail ← defaultLinksLoop itemUrl rest
          .ok (.obj withHref :: tail)
      | _ => defaultLinksLoop itemUrl rest

/-- `resolve_links` (processing.py:255-290): non-lists yield `[]`, the
umbra provider dispatches to `fix_umbra_links`, everything else gets the
default resolution loop. -/
def resolveLinksE (linksList : JValue) (itemUrl provider : String) :
    Except String (List JValue) :=
  match linksList with
  | .arr links =>
      if provider = "umbra" then .ok (fixUmbraLinks (.arr links) itemUrl)
      else defaultLinksLoop itemUrl links
  | _ => .ok []

/-- `flatten_stac_properties` (processing.py:429-449): copy and normalize
the properties, then store the compacted assets and resolved links under
the `assets`/`links` keys (overwriting same-named properties). -/
def flattenStacPropertiesE (item : JValue) (itemUrl provider : String) :
    Except String Record := do
  let props ← jGetD item "properties" (.obj [])
  match props with
  | .obj kvs => do
      let normalized := normalizePairs kvs
      let assetsIn ← jGetD item "assets" (.obj [])
      let assets ← compactAssetsDictE assetsIn itemUrl provider
      let linksIn ← jGetD item "links" (.arr [])
      let links ← resolveLinksE linksIn itemUrl provider
      .ok (pyInsert (pyInsert normalized "assets" assets) "links" (.arr links))
  | _ => .error "TypeError: properties is not a mapping"

/-- ISO-like date prefix `YYYY-MM-DD...`; stand-in for the formats
`pd.to_datetime(..., format="mixed")` accepts from these catalogs. -/
def isDateLike (s : String) : Bool :=
  match s.data with
  | y1 :: y2 :: y3 :: y4 :: '-' :: m1 :: m2 :: '-' :: d1 :: d2 :: _ =>
      y1.isDigit && y2.isDigit && y3.isDigit && y4.isDigit &&
      m1.isDigit && m2.isDigit && d1.isDigit && d2.isDigit
  | _ => false

/-- Executable stand-in for `pd.to_datetime(value, utc=True, format="mixed")`:
date-like strings parse to a timestamp carrying their text, timestamps pass
through, anything else raises. -/
def toDatetimeE : JValue → Except String JValue
  | .str s => if isDateLike s then .ok (.timestamp s) else .error "ParserError: unparsable datetime"
  | .timestamp s => .ok (.timestamp s)
  | _ => .error "TypeError: not a datetime source"

/-- `extract_datetime_fields` (processing.py:98-112): `start` falls back
from `start_datetime` to `datetime`, `end` from `end_datetime` to `start`;
truthy sources are parsed, falsy ones returned unchanged. -/
def extractDatetimeFieldsE (props : JValue) : Except String (JValue × JValue) :=
  match props with
  | .obj kvs => do
      let s0 := pyOr (pyGetD kvs "start_datetime" .null) (pyGetD kvs "datetime" .null)
      let e0 := pyOr (pyGetD kvs "end_datetime" .null) s0
      let sd ← if pyTruthy s0 then toDatetimeE s0 else .ok s0
      let ed ← if pyTruthy e0 then toDatetimeE e0 else .ok e0
      .ok (sd, ed)
  | _ => .error "AttributeError: object has no attribute get"

/-- One GeoJSON position `[x, y, ...]`. -/
def parsePos : JValue → Except String (ℚ × ℚ)
  | .arr (.num x :: .num y :: _) => .ok (x, y)
  | _ => .error "malformed position"

/-- All positions of one GeoJSON ring. -/
def parseRing : JValue → Except String (List (ℚ × ℚ))
  | .arr ps => ps.mapM parsePos
  | _ => .error "malformed ring"

/-- Executable stand-in for `shapely.geometry.shape` on the geometry kinds
these catalogs deliver (Point and Polygon): the resulting geometry is kept
abstract as its nonempty coordinate list; malformed or other geometry
raises, as the library call does inside the per-item `try`. -/
def shapeE : JValue → Except String (List (ℚ × ℚ))
  | .obj kvs =>
      match pyGetD kvs "type" .null, pyGetD kvs "coordinates" .null with
      | .str "Point", c => do
          let p ← parsePos c
          .ok [p]
      | .str "Polygon", .arr rings => do
          let pts ← rings.mapM parseRing
          let all := pts.flatten
          if all.isEmpty then .error "empty polygon" else .ok all
      | _, _ => .error "unsupported or malformed geometry"
  | _ => .error "unsupported or malformed geometry"

/-- `geometry.bounds`: `(minx, miny, maxx, maxy)` over the coordinates
(callers only reach this with a nonempty list). -/
def geomBounds : List (ℚ × ℚ) → ℚ × ℚ × ℚ × ℚ
  | [] => (0, 0, 0, 0)
  | p :: rest =>
      rest.foldl
        (fun acc q => (min acc.1 q.1, min acc.2.1 q.2, max acc.2.2.1 q.1, max acc.2.2.2 q.2))
        (p.1, p.2, p.1, p.2)

/-- The bbox struct built from geometry bounds (processing.py:88-95). -/
def boundsStruct (g : List (ℚ × ℚ)) : JValue :=
  .obj [("xmin", .num (geomBounds g).1),
        ("ymin", .num (geomBounds g).2.1),
        ("xmax", .num (geomBounds g).2.2.1),
        ("ymax", .num (geomBounds g).2.2.2)]

/-- `extract_bbox_struct` (processing.py:75-95): a truthy explicit bbox with
at least four components is trusted verbatim; otherwise the geometry's
bounds are used.  Truthy values without `len`/integer indexing raise. -/
def extractBboxStructE (g : List (ℚ × ℚ)) (itemBbox : JValue) : Except String JValue :=
  if pyTruthy itemBbox then
    match itemBbox with
    | .arr xs =>
        if xs.length ≥ 4 then
          .ok (.obj [("xmin", xs.getD 0 .null), ("ymin", xs.getD 1 .null),
                     ("xmax", xs.getD 2 .null), ("ymax", xs.getD 3 .null)])
        else .ok (boundsStruct g)
    | .tup xs =>
        if xs.length ≥ 4 then
          .ok (.obj [("xmin", xs.getD 0 .null), ("ymin", xs.getD 1 .null),
                     ("xmax", xs.getD 2 .null), ("ymax", xs.getD 3 .null)])
        else .ok (boundsStruct g)
    | .str s =>
        if s.length ≥ 4 then
          .ok (.obj [("xmin", .str (takeStr s 1)),
                     ("ymin", .str (takeStr (⟨s.data.drop 1⟩) 1)),
                     ("xmax", .str (takeStr (⟨s.data.drop 2⟩) 1)),
                     ("ymax", .str (takeStr (⟨s.data.drop 3⟩) 1))])
        else .ok (boundsStruct g)
    | _ => .error "TypeError: object has no len"
  else .ok (boundsStruct g)

/-- The per-item record construction of the VIZ branch of `process_provider`
(main.py:123-144): extract datetimes, parse the geometry, build the bbox
struct, flatten, pop the datetime properties, then assemble the record as a
dict literal whose `**flattened` entries override the reserved keys they
collide with. -/
def buildVizRecordE (item : JValue) (itemUrl provider : String) : Except String Record := do
  let props ← jGetD item "properties" (.obj [])
  let dts ← extractDatetimeFieldsE props
  let bboxVal ← jGetD item "bbox" .null
  let geomJson ← jGetD item "geometry" .null
  let g ← shapeE geomJson
  let bboxStruct ← extractBboxStructE g bboxVal
  let flattened ← flattenStacPropertiesE item itemUrl provider
  let flattened := popKey (popKey (popKey flattened "start_datetime") "end_datetime") "datetime"
  let idV ← jGetD item "id" .null
  let base : Record :=
    [("id", idV), ("geometry", .geom g), ("bbox", bboxStruct),
     ("start_datetime", dts.1), ("end_datetime", dts.2), ("provider", .str provider)]
  .ok (pyInsertAll base flattened)

/-- The VIZ batch loop of `process_provider` (main.py:120-149): items are
JSON objects (or a tolerant-fetch `None`); items failing the
truthiness/geometry guard are skipped, and any error raised while building
one record is caught at the per-item boundary, excluding only that item. -/
def processVizBatch (items : List (String × JValue)) (provider : String) : List Record :=
  items.filterMap (fun p =>
    match p.2 with
    | .obj kvs =>
        if pyTruthy (.obj kvs) && pyTruthy (pyGetD kvs "geometry" .null) then
          (buildVizRecordE (.obj kvs) p.1 provider).toOption
        else none
    | _ => none)

/-- The umbra asset-column loop of `process_stac_item_ard`
(processing_ard.py:16-20): for each asset with a truthy title, store a
reconstructed URL under `asset_<sanitized title>`; `.get`/`.replace` on
malformed entries raise. -/
def ardUmbraAssets (url : String) : List (String × JValue) → Record → Except String Record
  | [], rec => .ok rec
  | (k, v) :: rest, rec =>
      match v with
      | .obj okvs =>
          match pyGetD okvs "title" .null with
          | .str t =>
              if t ≠ "" then
                let col := "asset_" ++ lowerStr (replaceChar (replaceChar t '-' '_') '.' '_')
                ardUmbraAssets url rest
                  (pyInsert rec col (.str (replaceSub url (lastSeg url) k)))
              else ardUmbraAssets url rest rec
          | .null => ardUmbraAssets url rest rec
          | other =>
              if pyTruthy other then .error "AttributeError: object has no attribute replace"
              else ardUmbraAssets url rest rec
      | _ => .error "AttributeError: object has no attribute get"

/-- The default asset-column loop of `process_stac_item_ard`
(processing_ard.py:22-24). -/
def ardDefaultAssets : List (String × JValue) → Record → Except String Record
  | [], rec => .ok rec
  | (k, v) :: rest, rec =>
      match v with
      | .obj okvs =>
          ardDefaultAssets rest
            (pyInsert rec ("asset_" ++ replaceChar k '-' '_') (pyGetD okvs "href" .null))
      | _ => .error "AttributeError: object has no attribute get"

/-- `process_stac_item_ard` (processing_ard.py:1-26) with the mutation made
explicit: `record = item_json.get("properties", {})` aliases the item's own
properties dict, so every later `record[...] = ...` writes through to the
item.  The result pairs the returned record with the post-call state of the
item: its `properties` value is the mutated record whenever the item had a
`properties` key (the `{}` default is a fresh dict, so an item without the
key is left unchanged). -/
def processStacItemArdE (item : JValue) (url provider : String) :
    Except String (Option Record × JValue) :=
  match item with
  | .null => .ok (none, .null)
  | .obj kvs =>
      if !(pyTruthy (.obj kvs)) || !(pyTruthy (pyGetD kvs "geometry" .null)) then
        .ok (none, .obj kvs)
      else do
        let aliased := hasKey kvs "properties"
        let pkvs ←
          match getVal kvs "properties" with
          | some (.obj pkvs) => .ok pkvs
          | some _ => .error "TypeError: properties does not support item assignment"
          | none => .ok []
        let rec0 := pyInsert (pyInsert (pyInsert pkvs
          "geometry" (pyGetD kvs "geometry" .null))
          "id" (pyGetD kvs "id" .null))
          "stac_item_url" (.str url)
        match pyGetD kvs "assets" (.obj []) with
        | .obj akvs => do
            let recF ←
              if provider = "umbra" then ardUmbraAssets url akvs rec0
              else ardDefaultAssets akvs rec0
            .ok (some recF,
              .obj (if aliased then pyInsert kvs "properties" (.obj recF) else kvs))
        | _ =>
            .ok (some rec0,
              .obj (if aliased then pyInsert kvs "properties" (.obj rec0) else kvs))
  | _ => .error "AttributeError: object has no attribute get"

/-- The columns `serialize_complex_columns` never serializes
(processing.py:484-492). -/
def neverSerialize : List String :=
  ["geometry", "bbox", "links", "assets", "geometry_geojson",
   "start_datetime", "end_datetime"]

/-- The columns `serialize_mixed_type_columns` skips (processing.py:47-55). -/
def mixedSkipCols : List String :=
  ["geometry", "bbox", "id", "provider", "datetime", "start_datetime", "end_datetime"]

/-- `Series.dropna()` over a column modelled as a list of cells. -/
def dropNA (xs : List JValue) : List JValue := xs.filter (fun x => x ≠ .null)

/-- Python `isinstance(v, list)`. -/
def isListV : JValue → Bool
  | .arr _ => true
  | _ => false

/-- Python `isinstance(v, (list, dict))`. -/
def isComplexV : JValue → Bool
  | .arr _ => true
  | .obj _ => true
  | _ => false

/-- Sequence-shaped value (list or tuple), the "sequence" of the spec's
single-representation invariant. -/
def isSeqV : JValue → Bool
  | .arr _ => true
  | .tup _ => true
  | _ => false

/-- The per-column action of `serialize_complex_columns`
(processing.py:494-511): outside the never-serialize set, a column with any
complex non-null value has its complex values replaced by JSON text of
their normalized form. -/
def serializeComplexCol (col : String) (xs : List JValue) : List JValue :=
  if col ∈ neverSerialize then xs
  else
    let nn := dropNA xs
    if nn.isEmpty then xs
    else if nn.any isComplexV then
      xs.map (fun x => if isComplexV x then .str (jsonDumps (normalize x)) else x)
    else xs

/-- The per-column action of `serialize_mixed_type_columns`
(processing.py:39-72): outside its skip set, a column holding both list and
non-list non-null values has every non-null value replaced by JSON text. -/
def serializeMixedCol (col : String) (xs : List JValue) : List JValue :=
  if col ∈ mixedSkipCols then xs
  else
    let nn := dropNA xs
    if nn.isEmpty then xs
    else if nn.any isListV && nn.any (fun v => !isListV v) then
      xs.map (fun x => if x = .null then .null else .str (jsonDumps x))
    else xs

/-- One column's journey through `serialize_complex_columns`
(processing.py:468-516), which runs its own pass and then
`serialize_mixed_type_columns` over the whole frame. -/
def unifyColumn (col : String) (xs : List JValue) : List JValue :=
  serializeMixedCol col (serializeComplexCol col xs)


/-- The `href` of a link dict (`None` when absent or not a dict). -/
def linkHref : JValue → JValue
  | .obj kvs => pyGetD kvs "href" .null
  | _ => .null

/-- The `rel` of a link dict (`None` when absent or not a dict). -/
def linkRel : JValue → JValue
  | .obj kvs => pyGetD kvs "rel" .null
  | _ => .null

/-- `rel`-counting helper: how many entries are dicts whose `rel` equals
the given relation. -/
def countRel (links : List JValue) (r : String) : Nat :=
  links.countP (fun l => linkRel l = .str r)

/-- Strict ordering of a bbox struct: four numeric corners with
`xmin < xmax` and `ymin < ymax`. -/
def bboxStrict : JValue → Bool
  | .obj kvs =>
      match getVal kvs "xmin", getVal kvs "ymin", getVal kvs "xmax", getVal kvs "ymax" with
      | some (.num a), some (.num b), some (.num c), some (.num d) => a < c && b < d
      | _, _, _, _ => false
  | _ => false

/-- The columns skipped by both unification passes (the intersection of
`neverSerialize` and `mixedSkipCols`). -/
def skipBothCols : List String := ["geometry", "bbox", "start_datetime", "end_datetime"]

/-- Absence of every marker `_extract_umbra_asset_name` checks before its
file-extension fallbacks. -/
def noUmbraMarker (f : String) : Bool :=
  !strContains f "STAC" && !strContains (stemOf f) "ANALYSIS" &&
  !strContains (stemOf f) "CSI" && !strContains (stemOf f) "SICD" &&
  !strContains (stemOf f) "SIDD" &&
  !(endsW (stemOf f) "MM" || strContains (stemOf f) "_MM")

/-! ## General lemmas about the dict and value model -/

theorem except_bind_ok {ε α β : Type} (a : α) (f : α → Except ε β) :
    (Except.ok a >>= f) = f a := rfl

theorem except_bind_error {ε α β : Type} (e : ε) (f : α → Except ε β) :
    ((Except.error e : Except ε α) >>= f) = .error e := rfl

theorem getVal_eq_none_of_forall {d : Record} {k : String} (h : ∀ p ∈ d, p.1 ≠ k) :
    getVal d k = none := by
  induction d with
  | nil => rfl
  | cons p rest ih =>
      simp only [getVal]
      rw [if_neg (h p (by simp))]
      exact ih (fun q hq => h q (by simp [hq]))

theorem getVal_append (d e : Record) (k : String) :
    getVal (d ++ e) k = match getVal d k with | some v => some v | none => getVal e k := by
  induction d with
  | nil => simp [getVal]
  | cons p rest ih =>
      simp only [List.cons_append, getVal]
      by_cases hp : p.1 = k <;> simp [hp, ih]

theorem mem_of_getVal {d : Record} {k : String} {v : JValue} (h : getVal d k = some v) :
    (k, v) ∈ d := by
  induction d with
  | nil => simp [getVal] at h
  | cons p rest ih =>
      obtain ⟨pk, pv⟩ := p
      simp only [getVal] at h
      by_cases hp : pk = k
      · rw [if_pos hp] at h
        obtain rfl : pv = v := by injection h
        subst hp
        exact List.mem_cons_self _ _
      · rw [if_neg hp] at h
        exact List.mem_cons_of_mem _ (ih h)

theorem getVal_of_mem {d : Record} {k : String} {v : JValue}
    (hnd : (d.map Prod.fst).Nodup) (h : (k, v) ∈ d) : getVal d k = some v := by
  induction d with
  | nil => simp at h
  | cons p rest ih =>
      simp only [List.map_cons, List.nodup_cons] at hnd
      rcases List.mem_cons.mp h with h | h
      · subst h
        simp [getVal]
      · have hk : p.1 ≠ k := by
          intro hpk
          exact hnd.1 (hpk ▸ List.mem_map.mpr ⟨(k, v), h, rfl⟩)
        simp only [getVal, if_neg hk]
        exact ih hnd.2 h

theorem pyUpdElem (k : String) (v : JValue) (pk : String) (pv : JValue) :
    (if ((pk, pv) : String × JValue).1 = k then (((pk, pv) : String × JValue).1, v)
      else (pk, pv)) = if pk = k then (pk, v) else (pk, pv) := by
  by_cases h : pk = k <;> simp [h]

theorem getVal_pyInsert_self (d : Record) (k : String) (v : JValue) :
    getVal (pyInsert d k v) k = some v := by
  unfold pyInsert
  by_cases h : d.any (fun p => p.1 = k)
  · rw [if_pos h]
    induction d with
    | nil => simp at h
    | cons p rest ih =>
        obtain ⟨pk, pv⟩ := p
        rw [List.map_cons, pyUpdElem]
        by_cases hp : pk = k
        · rw [if_pos hp]
          simp [getVal, hp]
        · rw [if_neg hp]
          simp only [getVal, if_neg hp]
          exact ih (by simpa [List.any_cons, hp] using h)
  · rw [if_neg h]
    rw [getVal_append]
    rw [getVal_eq_none_of_forall (fun p hp => by
      intro hpk
      exact h (List.any_eq_true.mpr ⟨p, hp, by simp [hpk]⟩))]
    simp [getVal]

theorem getVal_pyInsert_other (d : Record) (k k' : String) (v : JValue) (hne : k' ≠ k) :
    getVal (pyInsert d k v) k' = getVal d k' := by
  have hkk' : ¬(k = k') := fun hk => hne hk.symm
  unfold pyInsert
  by_cases h : d.any (fun p => p.1 = k)
  · rw [if_pos h]
    clear h
    induction d with
    | nil => rfl
    | cons p rest ih =>
        obtain ⟨pk, pv⟩ := p
        rw [List.map_cons, pyUpdElem]
        by_cases hp : pk = k
        · rw [if_pos hp]
          simp only [getVal]
          rw [if_neg (fun hh : pk = k' => hkk' (hp ▸ hh)), if_neg (fun hh : pk = k' => hkk' (hp ▸ hh))]
          exact ih
        · rw [if_neg hp]
          simp only [getVal]
          by_cases hp' : pk = k' <;> simp [hp', ih]
  · rw [if_neg h, getVal_append]
    cases hd : getVal d k' with
    | some w => rfl
    | none => simp [getVal, hkk']

theorem mem_pyInsert_of_ne {d : Record} {p : String × JValue} {k : String} {v : JValue}
    (hp : p ∈ d) (hne : p.1 ≠ k) : p ∈ pyInsert d k v := by
  unfold pyInsert
  by_cases h : d.any (fun q => q.1 = k)
  · rw [if_pos h]
    refine List.mem_map.mpr ⟨p, hp, ?_⟩
    rw [if_neg hne]
  · rw [if_neg h]
    exact List.mem_append_left _ hp

theorem mem_pyInsert_elim {d : Record} {p : String × JValue} {k : String} {v : JValue}
    (h : p ∈ pyInsert d k v) : (p.1 = k ∧ p.2 = v) ∨ p ∈ d := by
  unfold pyInsert at h
  by_cases hb : d.any (fun q => q.1 = k)
  · rw [if_pos hb] at h
    rcases List.mem_map.mp h with ⟨q, hq, hqe⟩
    by_cases hqk : q.1 = k
    · rw [if_pos hqk] at hqe
      left
      rw [← hqe]
      exact ⟨hqk, rfl⟩
    · rw [if_neg hqk] at hqe
      right
      exact hqe ▸ hq
  · rw [if_neg hb] at h
    rcases List.mem_append.mp h with h | h
    · right; exact h
    · left
      simp only [List.mem_singleton] at h
      simp [h]

theorem keys_pyInsert_nodup {d : Record} {k : String} {v : JValue}
    (hnd : (d.map Prod.fst).Nodup) : ((pyInsert d k v).map Prod.fst).Nodup := by
  unfold pyInsert
  by_cases h : d.any (fun p => p.1 = k)
  · rw [if_pos h]
    have heq : (d.map (fun p => if p.1 = k then (p.1, v) else p)).map Prod.fst
        = d.map Prod.fst := by
      rw [List.map_map]
      apply List.map_congr_left
      intro p _
      by_cases hp : p.1 = k <;> simp [Function.comp, hp]
    rw [heq]
    exact hnd
  · rw [if_neg h, List.map_append]
    simp only [List.map_cons, List.map_nil]
    rw [List.nodup_append]
    refine ⟨hnd, List.nodup_singleton _, ?_⟩
    intro a ha hb
    simp only [List.mem_singleton] at hb
    subst hb
    rcases List.mem_map.mp ha with ⟨p, hp, hpk⟩
    rw [List.any_eq_true] at h
    exact h ⟨p, hp, by simp [hpk]⟩

theorem mem_popKey {d : Record} {p : String × JValue} {k : String} :
    p ∈ popKey d k ↔ p ∈ d ∧ p.1 ≠ k := by
  unfold popKey
  rw [List.mem_filter]
  simp

theorem keys_popKey_nodup {d : Record} {k : String}
    (hnd : (d.map Prod.fst).Nodup) : ((popKey d k).map Prod.fst).Nodup := by
  unfold popKey
  exact ((List.filter_sublist d).map Prod.fst).nodup hnd

theorem getVal_pyInsertAll_not_mem {base kvs : Record} {k : String}
    (h : ∀ p ∈ kvs, p.1 ≠ k) : getVal (pyInsertAll base kvs) k = getVal base k := by
  induction kvs generalizing base with
  | nil => rfl
  | cons p rest ih =>
      simp only [pyInsertAll, List.foldl_cons]
      rw [show List.foldl (fun acc q => pyInsert acc q.1 q.2) (pyInsert base p.1 p.2) rest
            = pyInsertAll (pyInsert base p.1 p.2) rest from rfl]
      rw [ih (fun q hq => h q (by simp [hq]))]
      exact getVal_pyInsert_other _ _ _ _ (fun hk => h p (by simp) (hk ▸ rfl))

theorem getVal_pyInsertAll_mem {base kvs : Record} {k : String} {v : JValue}
    (hnd : (kvs.map Prod.fst).Nodup) (h : (k, v) ∈ kvs) :
    getVal (pyInsertAll base kvs) k = some v := by
  induction kvs generalizing base with
  | nil => simp at h
  | cons p rest ih =>
      simp only [List.map_cons, List.nodup_cons] at hnd
      simp only [pyInsertAll, List.foldl_cons]
      rw [show List.foldl (fun acc q => pyInsert acc q.1 q.2) (pyInsert base p.1 p.2) rest
            = pyInsertAll (pyInsert base p.1 p.2) rest from rfl]
      rcases List.mem_cons.mp h with h | h
      · subst h
        show getVal (pyInsertAll (pyInsert base k v) rest) k = some v
        have hnm : ∀ q ∈ rest, q.1 ≠ k := by
          intro q hq hqk
          exact hnd.1 (hqk ▸ List.mem_map.mpr ⟨q, hq, rfl⟩)
        rw [getVal_pyInsertAll_not_mem hnm, getVal_pyInsert_self]
      · exact ih hnd.2 h

theorem normalizePairs_keys (kvs : List (String × JValue)) :
    (normalizePairs kvs).map Prod.fst = kvs.map Prod.fst := by
  induction kvs with
  | nil => rfl
  | cons p rest ih =>
      obtain ⟨k, v⟩ := p
      simp [normalizePairs, ih]

theorem getVal_normalizePairs (kvs : List (String × JValue)) (k : String) :
    getVal (normalizePairs kvs) k = (getVal kvs k).map normalize := by
  induction kvs with
  | nil => rfl
  | cons p rest ih =>
      obtain ⟨k', v⟩ := p
      simp only [normalizePairs, getVal]
      by_cases hk : k' = k <;> simp [hk, ih]

theorem mem_normalizePairs_of_mem {kvs : List (String × JValue)} {k : String} {v : JValue}
    (h : (k, v) ∈ kvs) : (k, normalize v) ∈ normalizePairs kvs := by
  induction kvs with
  | nil => simp at h
  | cons p rest ih =>
      obtain ⟨k', v'⟩ := p
      rcases List.mem_cons.mp h with h | h
      · rw [show k = k' from congrArg Prod.fst h, show v = v' from congrArg Prod.snd h]
        simp [normalizePairs]
      · simp only [normalizePairs]
        exact List.mem_cons_of_mem _ (ih h)

theorem normalize_eq_str {v : JValue} {s : String} :
    normalize v = .str s ↔ v = .str s := by
  cases v <;> simp [normalize]
  case npArr t => cases t <;> simp [npToList]

theorem normalize_npToList : ∀ t, normalize (npToList t) = npToList t :=
  npToList.induct
    (fun t => normalize (npToList t) = npToList t)
    (fun cs => normalizeList (npToListMany cs) = npToListMany cs)
    (fun q => rfl)
    (fun cs ih => by simp [npToList, normalize, ih])
    rfl
    (fun c cs ih1 ih2 => by simp [npToList, npToListMany, normalizeList, ih1, ih2])

theorem normalize_idem_all :
    (∀ v, normalize (normalize v) = normalize v) ∧
    (∀ xs, normalizeList (normalizeList xs) = normalizeList xs) ∧
    (∀ kvs, normalizePairs (normalizePairs kvs) = normalizePairs kvs) :=
  ⟨normalize.induct
      (fun v => normalize (normalize v) = normalize v)
      (fun xs => normalizeList (normalizeList xs) = normalizeList xs)
      (fun kvs => normalizePairs (normalizePairs kvs) = normalizePairs kvs)
      rfl (fun t => normalize_npToList t) (fun q => rfl)
      (fun kvs ih => by simp [normalize, ih])
      (fun xs ih => by simp [normalize, ih])
      (fun xs ih => by simp [normalize, ih])
      (fun b => rfl) (fun q => rfl) (fun s => rfl) (fun g => rfl) (fun s => rfl)
      rfl
      (fun x xs ih1 ih2 => by simp [normalizeList, ih1, ih2])
      rfl
      (fun k v rest ih1 ih2 => by simp [normalizePairs, ih1, ih2]),
   normalizeList.induct
      (fun v => normalize (normalize v) = normalize v)
      (fun xs => normalizeList (normalizeList xs) = normalizeList xs)
      (fun kvs => normalizePairs (normalizePairs kvs) = normalizePairs kvs)
      rfl (fun t => normalize_npToList t) (fun q => rfl)
      (fun kvs ih => by simp [normalize, ih])
      (fun xs ih => by simp [normalize, ih])
      (fun xs ih => by simp [normalize, ih])
      (fun b => rfl) (fun q => rfl) (fun s => rfl) (fun g => rfl) (fun s => rfl)
      rfl
      (fun x xs ih1 ih2 => by simp [normalizeList, ih1, ih2])
      rfl
      (fun k v rest ih1 ih2 => by simp [normalizePairs, ih1, ih2]),
   normalizePairs.induct
      (fun v => normalize (normalize v) = normalize v)
      (fun xs => normalizeList (normalizeList xs) = normalizeList xs)
      (fun kvs => normalizePairs (normalizePairs kvs) = normalizePairs kvs)
      rfl (fun t => normalize_npToList t) (fun q => rfl)
      (fun kvs ih => by simp [normalize, ih])
      (fun xs ih => by simp [normalize, ih])
      (fun xs ih => by simp [normalize, ih])
      (fun b => rfl) (fun q => rfl) (fun s => rfl) (fun g => rfl) (fun s => rfl)
      rfl
      (fun x xs ih1 ih2 => by simp [normalizeList, ih1, ih2])
      rfl
      (fun k v rest ih1 ih2 => by simp [normalizePairs, ih1, ih2])⟩

/-- C9: the Value Normalizer (`normalize_value_for_parquet`) is idempotent:
for every value `v`, `normalize (normalize v) = normalize v`, so normalizing
an already-normalized value returns it unchanged. -/
theorem c9_normalize_idempotent : ∀ v, normalize (normalize v) = normalize v :=
  normalize_idem_all.1

/-- C10: under the umbra key-renaming step two distinct raw keys can map to
the same extracted semantic name (here two plain `.json` keys both map to
`metadata`); only the later entry survives in the output mapping, so the
output has strictly fewer entries than the well-formed input. -/
theorem c10_key_collision_drops_assets :
    extractUmbraAssetName "a.json" = "metadata" ∧
    extractUmbraAssetName "b.json" = "metadata" ∧
    normalizeUmbraAssetKeys
        (.obj [("a.json", .obj [("href", .str "x")]), ("b.json", .obj [("href", .str "y")])])
      = .obj [("metadata", .obj [("href", .str "y")])] ∧
    ([("metadata", (.obj [("href", .str "y")] : JValue))].length <
      [("a.json", (.obj [("href", .str "x")] : JValue)),
       ("b.json", (.obj [("href", .str "y")] : JValue))].length) :=
  ⟨by decide, by decide, by decide, by decide⟩


theorem endsW_excl (f s₁ s₂ : String) (h1 : endsW f s₁ = true) (h2 : endsW f s₂ = true) :
    s₁.data.reverse <+: s₂.data.reverse ∨ s₂.data.reverse <+: s₁.data.reverse := by
  unfold endsW at h1 h2
  exact List.prefix_or_prefix_of_prefix
    (List.isPrefixOf_iff_prefix.mp h1) (List.isPrefixOf_iff_prefix.mp h2)

theorem endsW_ne_of (f s₁ s₂ : String) (h : endsW f s₁ = true)
    (hd : ¬(s₁.data.reverse <+: s₂.data.reverse ∨ s₂.data.reverse <+: s₁.data.reverse)) :
    endsW f s₂ = false := by
  cases h2 : endsW f s₂
  · rfl
  · exact absurd (endsW_excl f s₁ s₂ h h2) hd

/-- C5: the umbra key-renaming rule strips the timestamp and satellite
prefix and classifies the remaining descriptor by the ordered rules: the
`STAC` marker wins outright, `ANALYSIS` is next, the extension fallbacks
(`.json`/`.parquet`/`.cphd`/`.zip`/`.tif`/`.tiff`/`.nitf`/`.ntf`/`.xml`)
apply only when no marker matched, a `.json` key whose descriptor contains
`STAC` becomes `stac_metadata` (not `metadata`), and the concrete key
`2025-06-22-23-57-52_UMBRA-10_CSI_MM.tif` renames to `csi_mm`. -/
theorem c5_umbra_key_rule_order :
    extractUmbraAssetName "2025-06-22-23-57-52_UMBRA-10_CSI_MM.tif" = "csi_mm" ∧
    (∀ f, strContains f "STAC" = true → classifyUmbraDescriptor f = "stac_metadata") ∧
    (∀ f, strContains (stripUmbraTsSat f) "STAC" = true →
      extractUmbraAssetName f = "stac_metadata") ∧
    "stac_metadata" ≠ "metadata" ∧
    (∀ f, strContains f "STAC" = false → strContains (stemOf f) "ANALYSIS" = true →
      classifyUmbraDescriptor f = "analysis") ∧
    (∀ f, noUmbraMarker f = true → endsW f ".json" = true →
      classifyUmbraDescriptor f = "metadata") ∧
    (∀ f, noUmbraMarker f = true → endsW f ".parquet" = true →
      classifyUmbraDescriptor f = "raw_data") ∧
    (∀ f, noUmbraMarker f = true → endsW f ".cphd" = true →
      classifyUmbraDescriptor f = "cphd") ∧
    (∀ f, noUmbraMarker f = true → endsW f ".zip" = true →
      classifyUmbraDescriptor f = "archive") ∧
    (∀ f, noUmbraMarker f = true → (endsW f ".tif" = true ∨ endsW f ".tiff" = true) →
      classifyUmbraDescriptor f = "geotiff") ∧
    (∀ f, noUmbraMarker f = true → (endsW f ".nitf" = true ∨ endsW f ".ntf" = true) →
      classifyUmbraDescriptor f = "nitf") ∧
    (∀ f, noUmbraMarker f = true → endsW f ".xml" = true →
      classifyUmbraDescriptor f = "metadata_xml") := by
  refine ⟨by decide, ?_, ?_, by decide, ?_, ?_, ?_, ?_, ?_, ?_, ?_, ?_⟩
  · intro f h
    simp [classifyUmbraDescriptor, h]
  · intro f h
    unfold extractUmbraAssetName
    simp [classifyUmbraDescriptor, h]
  · intro f h1 h2
    simp [classifyUmbraDescriptor, h1, h2]
  all_goals
    intro f hm hext
    simp only [noUmbraMarker, Bool.and_eq_true, Bool.not_eq_true', Bool.or_eq_true,
      Bool.not_eq_true] at hm
    obtain ⟨⟨⟨⟨⟨hstac, hana⟩, hcsi⟩, hsicd⟩, hsidd⟩, hmm⟩ := hm
    obtain ⟨hmm1, hmm2⟩ := Bool.or_eq_false_iff.mp hmm
  case _ =>
    simp [classifyUmbraDescriptor, hstac, hana, hcsi, hsicd, hsidd, hmm1, hmm2, hext]
  case _ =>
    have hj := endsW_ne_of f ".parquet" ".json" hext (by decide)
    simp [classifyUmbraDescriptor, hstac, hana, hcsi, hsicd, hsidd, hmm1, hmm2, hj, hext]
  case _ =>
    have hj := endsW_ne_of f ".cphd" ".json" hext (by decide)
    have hp := endsW_ne_of f ".cphd" ".parquet" hext (by decide)
    simp [classifyUmbraDescriptor, hstac, hana, hcsi, hsicd, hsidd, hmm1, hmm2, hj, hp, hext]
  case _ =>
    have hj := endsW_ne_of f ".zip" ".json" hext (by decide)
    have hp := endsW_ne_of f ".zip" ".parquet" hext (by decide)
    have hc := endsW_ne_of f ".zip" ".cphd" hext (by decide)
    simp [classifyUmbraDescriptor, hstac, hana, hcsi, hsicd, hsidd, hmm1, hmm2, hj, hp, hc, hext]
  case _ =>
    rcases hext with hext | hext
    · have hj := endsW_ne_of f ".tif" ".json" hext (by decide)
      have hp := endsW_ne_of f ".tif" ".parquet" hext (by decide)
      have hc := endsW_ne_of f ".tif" ".cphd" hext (by decide)
      have hz := endsW_ne_of f ".tif" ".zip" hext (by decide)
      simp [classifyUmbraDescriptor, hstac, hana, hcsi, hsicd, hsidd, hmm1, hmm2,
        hj, hp, hc, hz, hext]
    · have hj := endsW_ne_of f ".tiff" ".json" hext (by decide)
      have hp := endsW_ne_of f ".tiff" ".parquet" hext (by decide)
      have hc := endsW_ne_of f ".tiff" ".cphd" hext (by decide)
      have hz := endsW_ne_of f ".tiff" ".zip" hext (by decide)
      simp [classifyUmbraDescriptor, hstac, hana, hcsi, hsicd, hsidd, hmm1, hmm2,
        hj, hp, hc, hz, hext]
  case _ =>
    rcases hext with hext | hext
    · have hj := endsW_ne_of f ".nitf" ".json" hext (by decide)
      have hp := endsW_ne_of f ".nitf" ".parquet" hext (by decide)
      have hc := endsW_ne_of f ".nitf" ".cphd" hext (by decide)
      have hz := endsW_ne_of f ".nitf" ".zip" hext (by decide)
      have ht1 := endsW_ne_of f ".nitf" ".tif" hext (by decide)
      have ht2 := endsW_ne_of f ".nitf" ".tiff" hext (by decide)
      simp [classifyUmbraDescriptor, hstac, hana, hcsi, hsicd, hsidd, hmm1, hmm2,
        hj, hp, hc, hz, ht1, ht2, hext]
    · have hj := endsW_ne_of f ".ntf" ".json" hext (by decide)
      have hp := endsW_ne_of f ".ntf" ".parquet" hext (by decide)
      have hc := endsW_ne_of f ".ntf" ".cphd" hext (by decide)
      have hz := endsW_ne_of f ".ntf" ".zip" hext (by decide)
      have ht1 := endsW_ne_of f ".ntf" ".tif" hext (by decide)
      have ht2 := endsW_ne_of f ".ntf" ".tiff" hext (by decide)
      simp [classifyUmbraDescriptor, hstac, hana, hcsi, hsicd, hsidd, hmm1, hmm2,
        hj, hp, hc, hz, ht1, ht2, hext]
  case _ =>
    have hj := endsW_ne_of f ".xml" ".json" hext (by decide)
    have hp := endsW_ne_of f ".xml" ".parquet" hext (by decide)
    have hc := endsW_ne_of f ".xml" ".cphd" hext (by decide)
    have hz := endsW_ne_of f ".xml" ".zip" hext (by decide)
    have ht1 := endsW_ne_of f ".xml" ".tif" hext (by decide)
    have ht2 := endsW_ne_of f ".xml" ".tiff" hext (by decide)
    have hn1 := endsW_ne_of f ".xml" ".nitf" hext (by decide)
    have hn2 := endsW_ne_of f ".xml" ".ntf" hext (by decide)
    simp [classifyUmbraDescriptor, hstac, hana, hcsi, hsicd, hsidd, hmm1, hmm2,
      hj, hp, hc, hz, ht1, ht2, hn1, hn2, hext]

theorem c5_witness : classifyUmbraDescriptor "STAC.json" = "stac_metadata" :=
  c5_umbra_key_rule_order.2.1 "STAC.json" (by decide)


theorem rel_normalizePairs (kvs : List (String × JValue)) (k s : String) :
    (pyGetD (normalizePairs kvs) k .null = .str s) ↔ (pyGetD kvs k .null = .str s) := by
  unfold pyGetD
  rw [getVal_normalizePairs]
  cases hv : getVal kvs k with
  | none => simp
  | some v => simpa using normalize_eq_str

theorem countRel_cons (l : JValue) (ls : List JValue) (r : String) :
    countRel (l :: ls) r = (if linkRel l = .str r then 1 else 0) + countRel ls r := by
  unfold countRel
  rw [List.countP_cons]
  by_cases h : linkRel l = .str r
  · simp [h]
    omega
  · simp [h]

theorem linkRel_selfLink (url : String) (t : JValue) : linkRel (selfLink url t) = .str "self" := by
  simp [selfLink, linkRel, pyGetD, getVal]

theorem linkHref_selfLink (url : String) (t : JValue) :
    linkHref (selfLink url t) = .str url := by
  simp [selfLink, linkHref, pyGetD, getVal]

theorem fixLoop_no_broken (url : String) (links : List JValue) (r : String)
    (hr : r = "collection" ∨ r = "parent") :
    countRel (fixUmbraLinksLoop url links) r = 0 := by
  induction links with
  | nil => rfl
  | cons l ls ih =>
      cases l with
      | obj kvs =>
          simp only [fixUmbraLinksLoop]
          by_cases hb : pyGetD kvs "rel" .null = .str "collection" ∨
              pyGetD kvs "rel" .null = .str "parent"
          · rw [if_pos hb]
            exact ih
          · rw [if_neg hb]
            by_cases hs : pyGetD kvs "rel" .null = .str "self"
            · rw [if_pos hs, countRel_cons, linkRel_selfLink]
              have : JValue.str "self" ≠ JValue.str r := by
                rcases hr with hr | hr <;> simp [hr]
              rw [if_neg this, ih]
            · rw [if_neg hs, countRel_cons]
              have : ¬(linkRel (.obj (normalizePairs kvs)) = .str r) := by
                simp only [linkRel]
                intro hcon
                rw [rel_normalizePairs] at hcon
                rcases hr with hr | hr <;> exact hb (by subst hr; simp [hcon])
              rw [if_neg this, ih]
      | null => exact ih
      | bool b => exact ih
      | num q => exact ih
      | str s => exact ih
      | arr xs => exact ih
      | tup xs => exact ih
      | npArr t => exact ih
      | npNum q => exact ih
      | geom g => exact ih
      | timestamp s => exact ih

theorem fixLoop_self_count (url : String) (links : List JValue) :
    countRel (fixUmbraLinksLoop url links) "self" = countRel links "self" := by
  induction links with
  | nil => rfl
  | cons l ls ih =>
      cases l with
      | obj kvs =>
          simp only [fixUmbraLinksLoop]
          rw [countRel_cons (.obj kvs)]
          simp only [linkRel]
          by_cases hb : pyGetD kvs "rel" .null = .str "collection" ∨
              pyGetD kvs "rel" .null = .str "parent"
          · rw [if_pos hb, ih]
            have : ¬(pyGetD kvs "rel" .null = .str "self") := by
              rcases hb with hb | hb <;> simp [hb]
            rw [if_neg this]
            omega
          · rw [if_neg hb]
            by_cases hs : pyGetD kvs "rel" .null = .str "self"
            · rw [if_pos hs, countRel_cons, linkRel_selfLink, ih, if_pos hs, if_pos rfl]
            · rw [if_neg hs, countRel_cons, ih, if_neg hs]
              have : ¬(linkRel (.obj (normalizePairs kvs)) = .str "self") := by
                simp only [linkRel]
                intro hcon
                exact hs ((rel_normalizePairs kvs "rel" "self").mp hcon)
              rw [if_neg this]
      | null => simpa [countRel_cons, linkRel] using ih
      | bool b => simpa [countRel_cons, linkRel] using ih
      | num q => simpa [countRel_cons, linkRel] using ih
      | str s => simpa [countRel_cons, linkRel] using ih
      | arr xs => simpa [countRel_cons, linkRel] using ih
      | tup xs => simpa [countRel_cons, linkRel] using ih
      | npArr t => simpa [countRel_cons, linkRel] using ih
      | npNum q => simpa [countRel_cons, linkRel] using ih
      | geom g => simpa [countRel_cons, linkRel] using ih
      | timestamp s => simpa [countRel_cons, linkRel] using ih

theorem fixLoop_self_href (url : String) (links : List JValue) :
    ∀ l ∈ fixUmbraLinksLoop url links, linkRel l = .str "self" → linkHref l = .str url := by
  induction links with
  | nil => intro l hl; simp [fixUmbraLinksLoop] at hl
  | cons x ls ih =>
      intro l hl hrel
      cases x with
      | obj kvs =>
          simp only [fixUmbraLinksLoop] at hl
          by_cases hb : pyGetD kvs "rel" .null = .str "collection" ∨
              pyGetD kvs "rel" .null = .str "parent"
          · rw [if_pos hb] at hl
            exact ih l hl hrel
          · rw [if_neg hb] at hl
            by_cases hs : pyGetD kvs "rel" .null = .str "self"
            · rw [if_pos hs] at hl
              rcases List.mem_cons.mp hl with hl | hl
              · subst hl
                exact linkHref_selfLink url _
              · exact ih l hl hrel
            · rw [if_neg hs] at hl
              rcases List.mem_cons.mp hl with hl | hl
              · subst hl
                exfalso
                apply hs
                exact (rel_normalizePairs kvs "rel" "self").mp (by simpa [linkRel] using hrel)
              · exact ih l hl hrel
      | null => exact ih l hl hrel
      | bool b => exact ih l hl hrel
      | num q => exact ih l hl hrel
      | str s => exact ih l hl hrel
      | arr xs => exact ih l hl hrel
      | tup xs => exact ih l hl hrel
      | npArr t => exact ih l hl hrel
      | npNum q => exact ih l hl hrel
      | geom g => exact ih l hl hrel
      | timestamp s => exact ih l hl hrel

theorem hasSelfLink_iff (links : List JValue) :
    hasSelfLink links = true ↔ countRel links "self" ≠ 0 := by
  unfold hasSelfLink countRel
  rw [List.any_eq_true]
  constructor
  · rintro ⟨l, hl, hp⟩ hc
    rw [List.countP_eq_zero] at hc
    exact hc l hl (by cases l <;> simp_all [linkRel])
  · intro hc
    have hne : ¬ ∀ a ∈ links, ¬(decide (linkRel a = .str "self") = true) :=
      fun hall => hc (List.countP_eq_zero.mpr hall)
    push_neg at hne
    obtain ⟨l, hl, hp⟩ := hne
    exact ⟨l, hl, by cases l <;> simp_all [linkRel]⟩

/-- C1 counterexample: with two well-formed `self` links in the input, the
umbra link repair emits two `self` links, not exactly one. -/
theorem c1_counterexample :
    (resolveLinksE (.arr [.obj [("rel", .str "self"), ("href", .str "a")],
                          .obj [("rel", .str "self"), ("href", .str "b")]]) "u" "umbra").map
        (fun out => countRel out "self") ≠ .ok 1 := by decide

/-- C1 (amended): the umbra link repair never emits `collection`/`parent`
links, every emitted `self` link points at the item URL, and the number of
emitted `self` links is `max 1 (number of well-formed input self links)` --
so it is exactly one whenever the input holds at most one `self` link, but
each input `self` link is rewritten rather than deduplicated. -/
theorem c1_umbra_links_postcondition (links : List JValue) (url : String) (out : List JValue)
    (h : resolveLinksE (.arr links) url "umbra" = .ok out) :
    countRel out "collection" = 0 ∧ countRel out "parent" = 0 ∧
    countRel out "self" = max 1 (countRel links "self") ∧
    (∀ l ∈ out, linkRel l = .str "self" → linkHref l = .str url) := by
  have hout : fixUmbraLinks (.arr links) url = out := by
    simpa [resolveLinksE] using h
  subst hout
  unfold fixUmbraLinks
  by_cases hself : hasSelfLink (fixUmbraLinksLoop url links)
  · simp only [if_pos hself]
    refine ⟨fixLoop_no_broken url links _ (Or.inl rfl),
      fixLoop_no_broken url links _ (Or.inr rfl), ?_, fixLoop_self_href url links⟩
    rw [fixLoop_self_count]
    have hz := (hasSelfLink_iff _).mp hself
    rw [fixLoop_self_count] at hz
    omega
  · simp only [if_neg hself]
    have hz : countRel (fixUmbraLinksLoop url links) "self" = 0 := by
      by_contra hc
      exact hself ((hasSelfLink_iff _).mpr hc)
    have hz' : countRel links "self" = 0 := by
      rw [← fixLoop_self_count url]
      exact hz
    unfold countRel at *
    refine ⟨?_, ?_, ?_, ?_⟩
    · rw [List.countP_append]
      have h1 := fixLoop_no_broken url links "collection" (Or.inl rfl)
      unfold countRel at h1
      rw [h1]
      simp [linkRel_selfLink]
    · rw [List.countP_append]
      have h1 := fixLoop_no_broken url links "parent" (Or.inr rfl)
      unfold countRel at h1
      rw [h1]
      simp [linkRel_selfLink]
    · rw [List.countP_append, hz, hz']
      simp [linkRel_selfLink]
    · intro l hl hrel
      rcases List.mem_append.mp hl with hl | hl
      · exact fixLoop_self_href url links l hl hrel
      · simp only [List.mem_singleton] at hl
        subst hl
        exact linkHref_selfLink url _

theorem c1_witness :
    countRel [selfLink "u" (.str "application/geo+json")] "collection" = 0 ∧
    countRel [selfLink "u" (.str "application/geo+json")] "self" = max 1 (countRel [] "self") ∧
    linkHref (selfLink "u" (.str "application/geo+json")) = .str "u" :=
  ⟨(c1_umbra_links_postcondition [] "u"
      [selfLink "u" (.str "application/geo+json")] (by decide)).1,
   (c1_umbra_links_postcondition [] "u"
      [selfLink "u" (.str "application/geo+json")] (by decide)).2.2.1,
   (c1_umbra_links_postcondition [] "u"
      [selfLink "u" (.str "application/geo+json")] (by decide)).2.2.2
      (selfLink "u" (.str "application/geo+json")) (by decide) (by decide)⟩


theorem jsonPure_seq_eq_list {x : JValue} (h : jsonPure x = true) : isSeqV x = isListV x := by
  cases x <;> simp_all [jsonPure, isSeqV, isListV]

theorem mem_dropNA {xs : List JValue} {x : JValue} :
    x ∈ dropNA xs ↔ x ∈ xs ∧ x ≠ .null := by
  unfold dropNA
  rw [List.mem_filter]
  simp

theorem skipBoth_never (col : String) (h : col ∈ skipBothCols) : col ∈ neverSerialize := by
  fin_cases h <;> decide

theorem skipBoth_mixed (col : String) (h : col ∈ skipBothCols) : col ∈ mixedSkipCols := by
  fin_cases h <;> decide

theorem mem_skipBoth_of_both (col : String) (h1 : col ∈ neverSerialize)
    (h2 : col ∈ mixedSkipCols) : col ∈ skipBothCols := by
  fin_cases h1 <;> revert h2 <;> decide

theorem pass2_preserves_nonseq (col : String) (ys : List JValue)
    (h : ∀ y ∈ dropNA ys, isSeqV y = false) :
    ∀ y ∈ dropNA (serializeMixedCol col ys), isSeqV y = false := by
  unfold serializeMixedCol
  by_cases hM : col ∈ mixedSkipCols
  · rw [if_pos hM]
    exact h
  · rw [if_neg hM]
    by_cases hemp : (dropNA ys).isEmpty
    · rw [if_pos hemp]
      exact h
    · rw [if_neg hemp]
      have hnl : (dropNA ys).any isListV = false := by
        rw [Bool.eq_false_iff]
        intro hany
        rcases List.any_eq_true.mp hany with ⟨y, hy, hl⟩
        have := h y hy
        cases y <;> simp_all [isListV, isSeqV]
      rw [hnl]
      simp only [Bool.false_and, if_false]
      exact h

theorem uniform_of_nonseq {ys : List JValue} (h : ∀ y ∈ dropNA ys, isSeqV y = false) :
    ∀ a ∈ dropNA ys, ∀ b ∈ dropNA ys, isSeqV a = isSeqV b := by
  intro a ha b hb
  rw [h a ha, h b hb]

/-- C3: after schema unification (complex-column serialization followed by
the mixed-type pass) no column simultaneously holds a sequence-shaped and a
non-sequence-shaped non-null value.  The hypotheses describe the cells of a
column of FlatRecords: the four columns both passes skip (`geometry`,
`bbox`, `start_datetime`, `end_datetime`) hold only non-sequence values
(geometry objects, bbox structs, timestamps), and every other column holds
plain JSON data. -/
theorem c3_unified_single_shape (col : String) (xs : List JValue)
    (hA : col ∈ skipBothCols → ∀ x ∈ dropNA xs, isSeqV x = false)
    (hB : col ∉ skipBothCols → ∀ x ∈ xs, jsonPure x = true) :
    ∀ a ∈ dropNA (unifyColumn col xs), ∀ b ∈ dropNA (unifyColumn col xs),
      isSeqV a = isSeqV b := by
  by_cases hsb : col ∈ skipBothCols
  · have e1 : serializeComplexCol col xs = xs := by
      unfold serializeComplexCol
      rw [if_pos (skipBoth_never col hsb)]
    unfold unifyColumn
    rw [e1]
    exact uniform_of_nonseq (pass2_preserves_nonseq col xs (hA hsb))
  · have hpure := hB hsb
    by_cases hN : col ∈ neverSerialize
    · have hM : col ∉ mixedSkipCols := fun hM => hsb (mem_skipBoth_of_both col hN hM)
      have e1 : serializeComplexCol col xs = xs := by
        unfold serializeComplexCol
        rw [if_pos hN]
      unfold unifyColumn
      rw [e1]
      unfold serializeMixedCol
      rw [if_neg hM]
      by_cases hemp : (dropNA xs).isEmpty
      · rw [if_pos hemp]
        intro a ha
        rw [List.isEmpty_iff.mp hemp] at ha
        simp at ha
      · rw [if_neg hemp]
        by_cases hmix : ((dropNA xs).any isListV && (dropNA xs).any fun v => !isListV v) = true
        · rw [if_pos hmix]
          have hall : ∀ y ∈ dropNA (xs.map fun x => if x = .null then .null
              else .str (jsonDumps x)), isSeqV y = false := by
            intro y hy
            obtain ⟨hy, hnn⟩ := mem_dropNA.mp hy
            rcases List.mem_map.mp hy with ⟨x, _, hfx⟩
            by_cases hxn : x = .null
            · rw [if_pos hxn] at hfx
              exact absurd hfx.symm hnn
            · rw [if_neg hxn] at hfx
              rw [← hfx]
              rfl
          exact uniform_of_nonseq hall
        · rw [if_neg hmix]
          intro a ha b hb
          rcases Bool.and_eq_false_iff.mp (Bool.eq_false_iff.mpr hmix) with hno | hno
          · have hfalse : ∀ y ∈ dropNA xs, isSeqV y = false := by
              intro y hy
              have hyl : isListV y = false := by
                by_contra hc
                rw [Bool.not_eq_false] at hc
                rw [Bool.eq_false_iff] at hno
                exact hno (List.any_eq_true.mpr ⟨y, hy, hc⟩)
              rw [jsonPure_seq_eq_list (hpure y (mem_dropNA.mp hy).1), hyl]
            rw [hfalse a ha, hfalse b hb]
          · have htrue : ∀ y ∈ dropNA xs, isSeqV y = true := by
              intro y hy
              have hyl : isListV y = true := by
                by_contra hc
                rw [Bool.eq_false_iff] at hno
                exact hno (List.any_eq_true.mpr ⟨y, hy, by
                  cases hl : isListV y
                  · rfl
                  · exact absurd hl hc⟩)
              cases y <;> simp_all [isListV, isSeqV]
            rw [htrue a ha, htrue b hb]
    · unfold unifyColumn
      have hnonseq : ∀ y ∈ dropNA (serializeComplexCol col xs), isSeqV y = false := by
        unfold serializeComplexCol
        rw [if_neg hN]
        by_cases hemp : (dropNA xs).isEmpty
        · rw [if_pos hemp]
          intro y hy
          rw [List.isEmpty_iff.mp hemp] at hy
          simp at hy
        · rw [if_neg hemp]
          by_cases hcx : (dropNA xs).any isComplexV
          · rw [if_pos hcx]
            intro y hy
            obtain ⟨hy, hnn⟩ := mem_dropNA.mp hy
            rcases List.mem_map.mp hy with ⟨x, hx, hfx⟩
            by_cases hxc : isComplexV x = true
            · rw [if_pos hxc] at hfx
              rw [← hfx]
              rfl
            · rw [if_neg hxc] at hfx
              subst hfx
              have hp := hpure x hx
              cases x <;> simp_all [isComplexV, isSeqV, jsonPure]
          · rw [if_neg hcx]
            intro y hy
            have hyl : isListV y = false := by
              by_contra hc
              rw [Bool.not_eq_false] at hc
              refine hcx (List.any_eq_true.mpr ⟨y, hy, ?_⟩)
              cases y <;> simp_all [isListV, isComplexV]
            rw [jsonPure_seq_eq_list (hpure y (mem_dropNA.mp hy).1), hyl]
      exact uniform_of_nonseq (pass2_preserves_nonseq col _ hnonseq)

theorem c3_witness :
    isSeqV (.str "[1, 2]") = isSeqV (.str "text") :=
  c3_unified_single_shape "widgets" [.arr [.num 1, .num 2], .str "text", .null]
    (by decide) (fun _ => by decide) (.str "[1, 2]") (by decide) (.str "text") (by decide)


theorem getVal_popKey_other {d : Record} {k k' : String} (hne : k' ≠ k) :
    getVal (popKey d k) k' = getVal d k' := by
  induction d with
  | nil => rfl
  | cons p rest ih =>
      obtain ⟨pk, pv⟩ := p
      unfold popKey at ih ⊢
      rw [List.filter_cons]
      by_cases hpk : pk = k
      · have : ¬(decide (((pk, pv) : String × JValue).1 ≠ k) = true) := by simp [hpk]
        rw [if_neg this]
        rw [ih]
        simp only [getVal]
        rw [if_neg (fun hh : pk = k' => hne (hpk ▸ hh ▸ rfl))]
      · have : decide (((pk, pv) : String × JValue).1 ≠ k) = true := by simp [hpk]
        rw [if_pos this]
        simp only [getVal]
        by_cases hp' : pk = k'
        · rw [if_pos hp', if_pos hp']
        · rw [if_neg hp', if_neg hp']
          exact ih

theorem mem_normalizePairs_elim {kvs : List (String × JValue)} {q : String × JValue}
    (h : q ∈ normalizePairs kvs) : ∃ p ∈ kvs, q = (p.1, normalize p.2) := by
  induction kvs with
  | nil => simp [normalizePairs] at h
  | cons p rest ih =>
      obtain ⟨pk, pv⟩ := p
      simp only [normalizePairs] at h
      rcases List.mem_cons.mp h with h | h
      · exact ⟨(pk, pv), List.mem_cons_self _ _, h⟩
      · rcases ih h with ⟨p', hp', he⟩
        exact ⟨p', List.mem_cons_of_mem _ hp', he⟩

theorem compact_ok_obj {a : JValue} {u p : String} {v : JValue}
    (h : compactAssetsDictE a u p = .ok v) : ∃ kvs, v = .obj kvs := by
  cases a with
  | obj kvs =>
      simp only [compactAssetsDictE] at h
      by_cases hu : p = "umbra"
      · rw [if_pos hu] at h
        simp only [fixUmbraAssetHrefsE] at h
        cases hfix : fixUmbraLoop (dirBase u) (replaceSub (lastSeg u) ".stac.v2.json" "") kvs [] with
        | error e =>
            rw [hfix] at h
            simp [except_bind_error] at h
        | ok fixed =>
            rw [hfix] at h
            simp only [except_bind_ok] at h
            obtain rfl : normalizeUmbraAssetKeys (.obj fixed) = v := by injection h
            exact ⟨umbraKeysLoop fixed [], rfl⟩
      · rw [if_neg hu] at h
        exact ⟨compactLoop kvs [], by injection h; simp_all⟩
  | null =>
      simp only [compactAssetsDictE] at h
      exact ⟨[], by injection h; simp_all⟩
  | bool b =>
      simp only [compactAssetsDictE] at h
      exact ⟨[], by injection h; simp_all⟩
  | num q =>
      simp only [compactAssetsDictE] at h
      exact ⟨[], by injection h; simp_all⟩
  | str s =>
      simp only [compactAssetsDictE] at h
      exact ⟨[], by injection h; simp_all⟩
  | arr xs =>
      simp only [compactAssetsDictE] at h
      exact ⟨[], by injection h; simp_all⟩
  | tup xs =>
      simp only [compactAssetsDictE] at h
      exact ⟨[], by injection h; simp_all⟩
  | npArr t =>
      simp only [compactAssetsDictE] at h
      exact ⟨[], by injection h; simp_all⟩
  | npNum q =>
      simp only [compactAssetsDictE] at h
      exact ⟨[], by injection h; simp_all⟩
  | geom g =>
      simp only [compactAssetsDictE] at h
      exact ⟨[], by injection h; simp_all⟩
  | timestamp s =>
      simp only [compactAssetsDictE] at h
      exact ⟨[], by injection h; simp_all⟩

theorem flatten_ok_spec {item : JValue} {url prov : String} {flat : Record}
    (h : flattenStacPropertiesE item url prov = .ok flat) :
    ∃ ikvs pkvs assets links,
      item = .obj ikvs ∧
      pyGetD ikvs "properties" (.obj []) = .obj pkvs ∧
      compactAssetsDictE (pyGetD ikvs "assets" (.obj [])) url prov = .ok assets ∧
      resolveLinksE (pyGetD ikvs "links" (.arr [])) url prov = .ok links ∧
      flat = pyInsert (pyInsert (normalizePairs pkvs) "assets" assets) "links" (.arr links) := by
  unfold flattenStacPropertiesE at h
  cases item with
  | obj ikvs =>
      simp only [jGetD, except_bind_ok] at h
      cases hpv : pyGetD ikvs "properties" (.obj []) with
      | obj pkvs =>
          rw [hpv] at h
          simp only [except_bind_ok] at h
          cases hca : compactAssetsDictE (pyGetD ikvs "assets" (.obj [])) url prov with
          | error e => rw [hca] at h; simp [except_bind_error] at h
          | ok assets =>
              rw [hca] at h
              simp only [except_bind_ok] at h
              cases hrl : resolveLinksE (pyGetD ikvs "links" (.arr [])) url prov with
              | error e => rw [hrl] at h; simp [except_bind_error] at h
              | ok links =>
                  rw [hrl] at h
                  simp only [except_bind_ok] at h
                  refine ⟨ikvs, pkvs, assets, links, rfl, hpv, hca, hrl, ?_⟩
                  injection h with h2
                  exact h2.symm
      | null => rw [hpv] at h; simp at h
      | bool b => rw [hpv] at h; simp at h
      | num q => rw [hpv] at h; simp at h
      | str s => rw [hpv] at h; simp at h
      | arr xs => rw [hpv] at h; simp at h
      | tup xs => rw [hpv] at h; simp at h
      | npArr t => rw [hpv] at h; simp at h
      | npNum q => rw [hpv] at h; simp at h
      | geom g => rw [hpv] at h; simp at h
      | timestamp s => rw [hpv] at h; simp at h
  | null => simp [jGetD, except_bind_error] at h
  | bool b => simp [jGetD, except_bind_error] at h
  | num q => simp [jGetD, except_bind_error] at h
  | str s => simp [jGetD, except_bind_error] at h
  | arr xs => simp [jGetD, except_bind_error] at h
  | tup xs => simp [jGetD, except_bind_error] at h
  | npArr t => simp [jGetD, except_bind_error] at h
  | npNum q => simp [jGetD, except_bind_error] at h
  | geom g => simp [jGetD, except_bind_error] at h
  | timestamp s => simp [jGetD, except_bind_error] at h

theorem buildViz_ok_spec {item : JValue} {url prov : String} {r : Record}
    (h : buildVizRecordE item url prov = .ok r) :
    ∃ (ikvs pkvs : List (String × JValue)) (sd ed : JValue) (g : List (ℚ × ℚ))
      (bstr assets : JValue) (links : List JValue),
      item = .obj ikvs ∧
      pyGetD ikvs "properties" (.obj []) = .obj pkvs ∧
      extractDatetimeFieldsE (.obj pkvs) = .ok (sd, ed) ∧
      shapeE (pyGetD ikvs "geometry" .null) = .ok g ∧
      extractBboxStructE g (pyGetD ikvs "bbox" .null) = .ok bstr ∧
      compactAssetsDictE (pyGetD ikvs "assets" (.obj [])) url prov = .ok assets ∧
      resolveLinksE (pyGetD ikvs "links" (.arr [])) url prov = .ok links ∧
      r = pyInsertAll
            [("id", pyGetD ikvs "id" .null), ("geometry", .geom g), ("bbox", bstr),
             ("start_datetime", sd), ("end_datetime", ed), ("provider", .str prov)]
            (popKey (popKey (popKey
              (pyInsert (pyInsert (normalizePairs pkvs) "assets" assets) "links" (.arr links))
              "start_datetime") "end_datetime") "datetime") := by
  unfold buildVizRecordE at h
  cases item with
  | obj ikvs =>
      simp only [jGetD, except_bind_ok] at h
      cases hdt : extractDatetimeFieldsE (pyGetD ikvs "properties" (.obj [])) with
      | error e => rw [hdt] at h; simp [except_bind_error] at h
      | ok dts =>
          rw [hdt] at h
          simp only [except_bind_ok] at h
          cases hsh : shapeE (pyGetD ikvs "geometry" .null) with
          | error e => rw [hsh] at h; simp [except_bind_error] at h
          | ok g =>
              rw [hsh] at h
              simp only [except_bind_ok] at h
              cases hbx : extractBboxStructE g (pyGetD ikvs "bbox" .null) with
              | error e => rw [hbx] at h; simp [except_bind_error] at h
              | ok bstr =>
                  rw [hbx] at h
                  simp only [except_bind_ok] at h
                  cases hfl : flattenStacPropertiesE (.obj ikvs) url prov with
                  | error e => rw [hfl] at h; simp [except_bind_error] at h
                  | ok flat =>
                      rw [hfl] at h
                      simp only [except_bind_ok] at h
                      rcases flatten_ok_spec hfl with
                        ⟨ikvs', pkvs, assets, links, hobj, hpv, hca, hrl, hfe⟩
                      obtain rfl : ikvs = ikvs' := by
                        injection hobj with hh
                      refine ⟨ikvs, pkvs, dts.1, dts.2, g, bstr, assets, links, rfl, hpv, ?_,
                        hsh, hbx, hca, hrl, ?_⟩
                      · rw [← hpv]
                        rw [hdt]
                      · injection h with h2
                        rw [← h2, hfe]
  | null => simp [jGetD, except_bind_error] at h
  | bool b => simp [jGetD, except_bind_error] at h
  | num q => simp [jGetD, except_bind_error] at h
  | str s => simp [jGetD, except_bind_error] at h
  | arr xs => simp [jGetD, except_bind_error] at h
  | tup xs => simp [jGetD, except_bind_error] at h
  | npArr t => simp [jGetD, except_bind_error] at h
  | npNum q => simp [jGetD, except_bind_error] at h
  | geom g => simp [jGetD, except_bind_error] at h
  | timestamp s => simp [jGetD, except_bind_error] at h

theorem flat_popped_key_ne {X : Record} {p : String × JValue}
    (h : p ∈ popKey (popKey (popKey X "start_datetime") "end_datetime") "datetime") :
    p ∈ X ∧ p.1 ≠ "start_datetime" ∧ p.1 ≠ "end_datetime" ∧ p.1 ≠ "datetime" := by
  obtain ⟨h1, hd⟩ := mem_popKey.mp h
  obtain ⟨h2, he⟩ := mem_popKey.mp h1
  obtain ⟨h3, hs⟩ := mem_popKey.mp h2
  exact ⟨h3, hs, he, hd⟩

/-- C2 counterexample: the record literal of `process_provider` spreads
`**flattened_props` after the reserved keys, so a property named `id`
overrides the reserved item id (`X001` is replaced by the property value
`P`). -/
theorem c2_counterexample :
    (buildVizRecordE
        (.obj [("id", .str "X001"),
               ("geometry", .obj [("type", .str "Point"),
                  ("coordinates", .arr [.num 1, .num 2])]),
               ("properties", .obj [("id", .str "P")])])
        "https://x/item.json" "iceye").map (fun r => getVal r "id")
      ≠ .ok (some (.str "X001")) ∧
    pyGetD [("id", .str "X001"),
            ("geometry", .obj [("type", .str "Point"),
               ("coordinates", .arr [.num 1, .num 2])]),
            ("properties", .obj [("id", .str "P")])] "id" .null = .str "X001" ∧
    (buildVizRecordE
        (.obj [("id", .str "X001"),
               ("geometry", .obj [("type", .str "Point"),
                  ("coordinates", .arr [.num 1, .num 2])]),
               ("properties", .obj [("id", .str "P")])])
        "https://x/item.json" "iceye").map (fun r => getVal r "id")
      = .ok (some (.str "P")) := by
  refine ⟨by decide, by decide, by decide⟩

/-- C2 (amended): only the datetime-reserved keys always win -- the record
keeps the extracted `start_datetime`/`end_datetime` even when same-named
properties exist (they are popped from the flattened properties before the
merge), while for the other reserved keys (`id`, `geometry`, `bbox`,
`provider`) a same-named property value (normalized) overrides the reserved
value. -/
theorem c2_reserved_key_precedence (item : JValue) (url prov : String) (r : Record)
    (ikvs pkvs : List (String × JValue)) (sd ed : JValue)
    (hi : item = .obj ikvs)
    (hp : pyGetD ikvs "properties" (.obj []) = .obj pkvs)
    (hd : extractDatetimeFieldsE (.obj pkvs) = .ok (sd, ed))
    (h : buildVizRecordE item url prov = .ok r) :
    getVal r "start_datetime" = some sd ∧ getVal r "end_datetime" = some ed ∧
    (∀ k v, (k = "id" ∨ k = "geometry" ∨ k = "bbox" ∨ k = "provider") →
      (pkvs.map Prod.fst).Nodup → getVal pkvs k = some v →
      getVal r k = some (normalize v)) := by
  subst hi
  rcases buildViz_ok_spec h with ⟨ikvs2, pkvs2, sd2, ed2, g, bstr, assets, links,
    hi2, hp2, hd2, hsh, hbx, hca, hrl, hr⟩
  simp only [JValue.obj.injEq] at hi2
  subst hi2
  rw [hp] at hp2
  simp only [JValue.obj.injEq] at hp2
  subst hp2
  rw [hd] at hd2
  simp only [Except.ok.injEq, Prod.mk.injEq] at hd2
  obtain ⟨hsd, hed⟩ := hd2
  subst hsd
  subst hed
  subst hr
  refine ⟨?_, ?_, ?_⟩
  · rw [getVal_pyInsertAll_not_mem (fun p hp' => (flat_popped_key_ne hp').2.1)]
    rfl
  · rw [getVal_pyInsertAll_not_mem (fun p hp' => (flat_popped_key_ne hp').2.2.1)]
    rfl
  · intro k v hk hnd hv
    have hkne : k ≠ "start_datetime" ∧ k ≠ "end_datetime" ∧ k ≠ "datetime" ∧
        k ≠ "assets" ∧ k ≠ "links" := by
      rcases hk with rfl | rfl | rfl | rfl <;>
        exact ⟨by decide, by decide, by decide, by decide, by decide⟩
    have hmem0 : (k, normalize v) ∈ normalizePairs pkvs :=
      mem_normalizePairs_of_mem (mem_of_getVal hv)
    have hmem1 : (k, normalize v) ∈ pyInsert (normalizePairs pkvs) "assets" assets :=
      mem_pyInsert_of_ne hmem0 hkne.2.2.2.1
    have hmem2 : (k, normalize v) ∈
        pyInsert (pyInsert (normalizePairs pkvs) "assets" assets) "links" (.arr links) :=
      mem_pyInsert_of_ne hmem1 hkne.2.2.2.2
    have hmem3 : (k, normalize v) ∈ popKey (popKey (popKey
        (pyInsert (pyInsert (normalizePairs pkvs) "assets" assets) "links" (.arr links))
        "start_datetime") "end_datetime") "datetime" :=
      mem_popKey.mpr ⟨mem_popKey.mpr ⟨mem_popKey.mpr ⟨hmem2, hkne.1⟩, hkne.2.1⟩, hkne.2.2.1⟩
    have h0 : ((normalizePairs pkvs).map Prod.fst).Nodup := by
      rw [normalizePairs_keys]
      exact hnd
    exact getVal_pyInsertAll_mem
      (keys_popKey_nodup (keys_popKey_nodup (keys_popKey_nodup
        (keys_pyInsert_nodup (keys_pyInsert_nodup h0))))) hmem3

/-- Concrete item used to witness the amended C2 statement. -/
def c2Ikvs : List (String × JValue) :=
  [("id", .str "X001"),
   ("geometry", .obj [("type", .str "Point"), ("coordinates", .arr [.num 1, .num 2])]),
   ("properties", .obj [("id", .str "P")])]

/-- The C2 witness item as a value. -/
def c2Item : JValue := .obj c2Ikvs

/-- The C2 witness item's properties. -/
def c2Pkvs : List (String × JValue) := [("id", .str "P")]

/-- The record the pipeline builds from `c2Item`. -/
def c2Rec : Record :=
  [("id", .str "P"), ("geometry", .geom [(1, 2)]),
   ("bbox", .obj [("xmin", .num 1), ("ymin", .num 2), ("xmax", .num 1), ("ymax", .num 2)]),
   ("start_datetime", .null), ("end_datetime", .null),
   ("provider", .str "iceye"), ("assets", .obj []), ("links", .arr [])]

theorem c2_witness :
    getVal c2Rec "start_datetime" = some .null ∧
    getVal c2Rec "id" = some (normalize (.str "P")) :=
  ⟨(c2_reserved_key_precedence c2Item "https://x/item.json" "iceye" c2Rec c2Ikvs c2Pkvs
      .null .null rfl (by decide) (by decide) (by decide)).1,
   (c2_reserved_key_precedence c2Item "https://x/item.json" "iceye" c2Rec c2Ikvs c2Pkvs
      .null .null rfl (by decide) (by decide) (by decide)).2.2
      "id" (.str "P") (Or.inl rfl) (by decide) (by decide)⟩

/-- C4 counterexample: an item that supplies the explicit (inverted) bbox
`[2, 2, 1, 1]` is flattened with that bbox verbatim, so the produced
record's bbox violates `xmin < xmax` and `ymin < ymax`. -/
theorem c4_counterexample :
    (buildVizRecordE
        (.obj [("id", .str "X001"),
               ("geometry", .obj [("type", .str "Point"),
                  ("coordinates", .arr [.num 1, .num 2])]),
               ("bbox", .arr [.num 2, .num 2, .num 1, .num 1]),
               ("properties", .obj [])])
        "https://x/item.json" "iceye").map (fun r => (getVal r "bbox").map bboxStrict)
      = .ok (some false) ∧
    (Except.ok (some false) : Except String (Option Bool)) ≠ .ok (some true) := by
  refine ⟨by decide, by decide⟩

/-- C4 (amended): for an item whose explicit bbox is absent or falsy and
whose properties mapping (with distinct keys) holds no `geometry` or `bbox`
entry, the flattened record carries the geometry (non-null), a bbox
computed from the geometry's bounds that satisfies `xmin < xmax` and
`ymin < ymax` whenever the bounds do, and `assets`/`links` values of
mapping/sequence kind.  The record-shape guarantee fails outside these
conditions: an explicit bbox of at least four entries is trusted verbatim
(see the counterexample), so the strict inequalities are guaranteed only
for the computed case, and a property named `geometry` or `bbox` overrides
the computed value through the same properties spread that settles the C2
precedence correction. -/
theorem c4_flatten_record_shape (item : JValue) (url prov : String) (r : Record)
    (ikvs pkvs : List (String × JValue)) (g : List (ℚ × ℚ))
    (hi : item = .obj ikvs)
    (h : buildVizRecordE item url prov = .ok r)
    (hb : pyTruthy (pyGetD ikvs "bbox" .null) = false)
    (hg : shapeE (pyGetD ikvs "geometry" .null) = .ok g)
    (hp : pyGetD ikvs "properties" (.obj []) = .obj pkvs)
    (hnd : (pkvs.map Prod.fst).Nodup)
    (hnog : ∀ p ∈ pkvs, p.1 ≠ "geometry")
    (hnob : ∀ p ∈ pkvs, p.1 ≠ "bbox")
    (hx : (geomBounds g).1 < (geomBounds g).2.2.1)
    (hy : (geomBounds g).2.1 < (geomBounds g).2.2.2) :
    getVal r "geometry" = some (.geom g) ∧
    getVal r "bbox" = some (boundsStruct g) ∧
    bboxStrict (boundsStruct g) = true ∧
    (∃ akvs, getVal r "assets" = some (.obj akvs)) ∧
    (∃ ls, getVal r "links" = some (.arr ls)) := by
  subst hi
  rcases buildViz_ok_spec h with ⟨ikvs2, pkvs2, sd, ed, g2, bstr, assets, links,
    hi2, hp2, hd2, hsh, hbx, hca, hrl, hr⟩
  simp only [JValue.obj.injEq] at hi2
  subst hi2
  rw [hp] at hp2
  simp only [JValue.obj.injEq] at hp2
  subst hp2
  rw [hg] at hsh
  simp only [Except.ok.injEq] at hsh
  subst hsh
  unfold extractBboxStructE at hbx
  rw [hb] at hbx
  simp only [Bool.false_eq_true, if_false, Except.ok.injEq] at hbx
  subst hbx
  subst hr
  have hnof : ∀ (key : String), key ≠ "assets" → key ≠ "links" →
      (∀ p ∈ pkvs, p.1 ≠ key) →
      ∀ p ∈ popKey (popKey (popKey
        (pyInsert (pyInsert (normalizePairs pkvs) "assets" assets) "links" (.arr links))
        "start_datetime") "end_datetime") "datetime", p.1 ≠ key := by
    intro key hka hkl hkp p hpmem
    have h1 := (flat_popped_key_ne hpmem).1
    rcases mem_pyInsert_elim h1 with hl | h2
    · rw [hl.1]
      exact Ne.symm hkl
    · rcases mem_pyInsert_elim h2 with ha | h3
      · rw [ha.1]
        exact Ne.symm hka
      · rcases mem_normalizePairs_elim h3 with ⟨q, hq, he⟩
        rw [he]
        exact hkp q hq
  have h0 : ((normalizePairs pkvs).map Prod.fst).Nodup := by
    rw [normalizePairs_keys]
    exact hnd
  have hflnd : ((popKey (popKey (popKey
      (pyInsert (pyInsert (normalizePairs pkvs) "assets" assets) "links" (.arr links))
      "start_datetime") "end_datetime") "datetime").map Prod.fst).Nodup :=
    keys_popKey_nodup (keys_popKey_nodup (keys_popKey_nodup
      (keys_pyInsert_nodup (keys_pyInsert_nodup h0))))
  refine ⟨?_, ?_, ?_, ?_, ?_⟩
  · rw [getVal_pyInsertAll_not_mem (hnof "geometry" (by decide) (by decide) hnog)]
    rfl
  · rw [getVal_pyInsertAll_not_mem (hnof "bbox" (by decide) (by decide) hnob)]
    rfl
  · simp [bboxStrict, boundsStruct, getVal, hx, hy]
  · rcases compact_ok_obj hca with ⟨akvs, rfl⟩
    refine ⟨akvs, ?_⟩
    have hfv : getVal (popKey (popKey (popKey
        (pyInsert (pyInsert (normalizePairs pkvs) "assets" (.obj akvs)) "links" (.arr links))
        "start_datetime") "end_datetime") "datetime") "assets" = some (.obj akvs) := by
      rw [getVal_popKey_other (by decide), getVal_popKey_other (by decide),
        getVal_popKey_other (by decide), getVal_pyInsert_other _ _ _ _ (by decide),
        getVal_pyInsert_self]
    exact getVal_pyInsertAll_mem hflnd (mem_of_getVal hfv)
  · refine ⟨links, ?_⟩
    have hfv : getVal (popKey (popKey (popKey
        (pyInsert (pyInsert (normalizePairs pkvs) "assets" assets) "links" (.arr links))
        "start_datetime") "end_datetime") "datetime") "links" = some (.arr links) := by
      rw [getVal_popKey_other (by decide), getVal_popKey_other (by decide),
        getVal_popKey_other (by decide), getVal_pyInsert_self]
    exact getVal_pyInsertAll_mem hflnd (mem_of_getVal hfv)

/-- Concrete item used to witness the amended C4 statement. -/
def c4Ikvs : List (String × JValue) :=
  [("id", .str "X001"),
   ("geometry", .obj [("type", .str "Polygon"),
      ("coordinates", .arr [.arr [.arr [.num 0, .num 0], .arr [.num 1, .num 1]]])]),
   ("properties", .obj [("id", .str "P")])]

/-- The C4 witness item as a value. -/
def c4Item : JValue := .obj c4Ikvs

/-- The C4 witness item's properties. -/
def c4Pkvs : List (String × JValue) := [("id", .str "P")]

/-- The record the pipeline builds from `c4Item`. -/
def c4Rec : Record :=
  [("id", .str "P"), ("geometry", .geom [(0, 0), (1, 1)]),
   ("bbox", .obj [("xmin", .num 0), ("ymin", .num 0), ("xmax", .num 1), ("ymax", .num 1)]),
   ("start_datetime", .null), ("end_datetime", .null),
   ("provider", .str "iceye"), ("assets", .obj []), ("links", .arr [])]

theorem c4_witness :
    getVal c4Rec "geometry" = some (.geom [(0, 0), (1, 1)]) ∧
    bboxStrict (boundsStruct [(0, 0), (1, 1)]) = true :=
  ⟨(c4_flatten_record_shape c4Item "https://x/item.json" "iceye" c4Rec c4Ikvs c4Pkvs
      [(0, 0), (1, 1)] rfl (by decide) (by decide) (by decide) (by decide)
      (by decide) (by decide) (by decide) (by decide) (by decide)).1,
   (c4_flatten_record_shape c4Item "https://x/item.json" "iceye" c4Rec c4Ikvs c4Pkvs
      [(0, 0), (1, 1)] rfl (by decide) (by decide) (by decide) (by decide)
      (by decide) (by decide) (by decide) (by decide) (by decide)).2.2.1⟩

theorem filterMap_eraseIdx_of_none {α β : Type} (f : α → Option β) :
    ∀ (l : List α) (i : Nat) (hi : i < l.length), f (l.get ⟨i, hi⟩) = none →
      l.filterMap f = (l.eraseIdx i).filterMap f := by
  intro l
  induction l with
  | nil => intro i hi; simp at hi
  | cons a rest ih =>
      intro i hi hf
      cases i with
      | zero =>
          simp only [List.get] at hf
          simp only [List.eraseIdx]
          rw [List.filterMap_cons, hf]
      | succ j =>
          simp only [List.get] at hf
          simp only [List.eraseIdx]
          rw [List.filterMap_cons, List.filterMap_cons]
          have hj : j < rest.length := by
            simpa using hi
          rw [ih j hj hf]

/-- C7: a per-item error during VIZ record construction is caught at the
per-item boundary: the batch result is exactly what it would be with the
failing item removed, so every other item is still processed and no
per-item error aborts the batch. -/
theorem c7_per_item_error_isolated (items : List (String × JValue)) (prov : String)
    (i : Nat) (hi : i < items.length) (e : String)
    (herr : buildVizRecordE (items.get ⟨i, hi⟩).2 (items.get ⟨i, hi⟩).1 prov = .error e) :
    processVizBatch items prov = processVizBatch (items.eraseIdx i) prov := by
  unfold processVizBatch
  apply filterMap_eraseIdx_of_none _ items i hi
  cases hp2 : (items.get ⟨i, hi⟩).2 with
  | obj kvs =>
      by_cases hg : (pyTruthy (.obj kvs) && pyTruthy (pyGetD kvs "geometry" .null)) = true
      · show (if (pyTruthy (.obj kvs) && pyTruthy (pyGetD kvs "geometry" .null)) = true
            then (buildVizRecordE (.obj kvs) (items.get ⟨i, hi⟩).1 prov).toOption
            else none) = none
        rw [if_pos hg]
        rw [hp2] at herr
        rw [herr]
        rfl
      · show (if (pyTruthy (.obj kvs) && pyTruthy (pyGetD kvs "geometry" .null)) = true
            then (buildVizRecordE (.obj kvs) (items.get ⟨i, hi⟩).1 prov).toOption
            else none) = none
        rw [if_neg hg]
  | null => rfl
  | bool b => rfl
  | num q => rfl
  | str s => rfl
  | arr xs => rfl
  | tup xs => rfl
  | npArr t => rfl
  | npNum q => rfl
  | geom g => rfl
  | timestamp s => rfl

theorem c7_witness :
    processVizBatch
        [("u", .obj [("geometry", .str "garbage")]),
         ("v", .obj [("id", .str "B"),
            ("geometry", .obj [("type", .str "Point"),
               ("coordinates", .arr [.num 3, .num 4])])])] "iceye"
      = processVizBatch
        (List.eraseIdx
          [("u", .obj [("geometry", .str "garbage")]),
           ("v", .obj [("id", .str "B"),
              ("geometry", .obj [("type", .str "Point"),
                 ("coordinates", .arr [.num 3, .num 4])])])] 0) "iceye" :=
  c7_per_item_error_isolated
    [("u", .obj [("geometry", .str "garbage")]),
     ("v", .obj [("id", .str "B"),
        ("geometry", .obj [("type", .str "Point"),
           ("coordinates", .arr [.num 3, .num 4])])])] "iceye" 0 (by decide)
    "unsupported or malformed geometry" (by decide)

/-- Concrete item used for the C8 counterexample and witness. -/
def c8Kvs : List (String × JValue) :=
  [("id", .str "A"),
   ("geometry", .obj [("type", .str "Point"), ("coordinates", .arr [.num 1, .num 2])]),
   ("properties", .obj [])]

/-- The record `process_stac_item_ard` builds from `c8Kvs` (which is also
what the aliased properties dict becomes). -/
def c8Rec : Record :=
  [("geometry", .obj [("type", .str "Point"), ("coordinates", .arr [.num 1, .num 2])]),
   ("id", .str "A"), ("stac_item_url", .str "https://x/item.json")]

/-- C8 counterexample: `process_stac_item_ard` aliases the item's own
properties dict (`record = item_json.get("properties", {})`) and writes
into it, so after ARD record construction the item differs from its input:
its `properties` mapping now holds `geometry`, `id` and `stac_item_url`. -/
theorem c8_counterexample :
    (processStacItemArdE (.obj c8Kvs) "https://x/item.json" "iceye").map Prod.snd
      ≠ .ok (.obj c8Kvs) ∧
    (processStacItemArdE (.obj c8Kvs) "https://x/item.json" "iceye").map Prod.snd
      = .ok (.obj (pyInsert c8Kvs "properties" (.obj c8Rec))) := by
  refine ⟨by decide, by decide⟩

theorem hasKey_false_iff (d : Record) (k : String) :
    hasKey d k = false ↔ getVal d k = none := by
  induction d with
  | nil => simp [hasKey, getVal]
  | cons p rest ih =>
      obtain ⟨pk, pv⟩ := p
      by_cases hp : pk = k
      · simp [hasKey, getVal, hp]
      · simp only [hasKey, List.any_cons] at ih ⊢
        simp [getVal, hp, ih]

/-- C8 (amended): the VIZ flattening copies the properties mapping and
leaves the item unchanged, but the ARD record construction mutates the item
in place: whenever it returns a record and the item had a `properties` key,
the post-call item equals the input with its `properties` entry replaced by
the constructed record (the default used when the key is absent is a
fresh dict, so such items stay unchanged); skipped items are returned
unchanged. -/
theorem c8_ard_mutates_aliased_properties (item : JValue) (kvs : List (String × JValue))
    (url prov : String) (orec : Option Record) (post : JValue)
    (hi : item = .obj kvs)
    (h : processStacItemArdE item url prov = .ok (orec, post)) :
    (orec = none → post = item) ∧
    (∀ rec, orec = some rec →
      post = .obj (if hasKey kvs "properties" then pyInsert kvs "properties" (.obj rec)
                   else kvs)) := by
  subst hi
  simp only [processStacItemArdE] at h
  by_cases hguard : (!pyTruthy (.obj kvs) || !pyTruthy (pyGetD kvs "geometry" .null)) = true
  · rw [if_pos hguard] at h
    simp only [Except.ok.injEq, Prod.mk.injEq] at h
    obtain ⟨ho, hpost⟩ := h
    subst ho
    subst hpost
    exact ⟨fun _ => rfl, fun rec hrec => by simp at hrec⟩
  · rw [if_neg hguard] at h
    cases hpv : getVal kvs "properties" with
    | none =>
        have hal : hasKey kvs "properties" = false := (hasKey_false_iff _ _).mpr hpv
        rw [hpv] at h
        simp only [except_bind_ok, hal, Bool.false_eq_true, if_false] at h
        cases hak : pyGetD kvs "assets" (.obj []) with
        | obj akvs =>
            rw [hak] at h
            simp only [] at h
            by_cases hpu : prov = "umbra"
            · rw [if_pos hpu] at h
              cases hloop : ardUmbraAssets url akvs (pyInsert (pyInsert (pyInsert []
                  "geometry" (pyGetD kvs "geometry" .null))
                  "id" (pyGetD kvs "id" .null))
                  "stac_item_url" (.str url)) with
              | error e => rw [hloop] at h; simp [except_bind_error] at h
              | ok recF =>
                  rw [hloop] at h
                  simp only [except_bind_ok, Except.ok.injEq, Prod.mk.injEq] at h
                  obtain ⟨ho, hpost⟩ := h
                  subst ho
                  subst hpost
                  refine ⟨fun hc => by simp at hc, fun rec hrec => ?_⟩
                  obtain rfl : recF = rec := by injection hrec
                  rw [hal]
                  simp
            · rw [if_neg hpu] at h
              cases hloop : ardDefaultAssets akvs (pyInsert (pyInsert (pyInsert []
                  "geometry" (pyGetD kvs "geometry" .null))
                  "id" (pyGetD kvs "id" .null))
                  "stac_item_url" (.str url)) with
              | error e => rw [hloop] at h; simp [except_bind_error] at h
              | ok recF =>
                  rw [hloop] at h
                  simp only [except_bind_ok, Except.ok.injEq, Prod.mk.injEq] at h
                  obtain ⟨ho, hpost⟩ := h
                  subst ho
                  subst hpost
                  refine ⟨fun hc => by simp at hc, fun rec hrec => ?_⟩
                  obtain rfl : recF = rec := by injection hrec
                  rw [hal]
                  simp
        | null =>
            rw [hak] at h
            simp only [Except.ok.injEq, Prod.mk.injEq] at h
            obtain ⟨ho, hpost⟩ := h
            subst ho
            subst hpost
            refine ⟨fun hc => by simp at hc, fun rec hrec => ?_⟩
            obtain rfl : _ = rec := by injection hrec
            rw [hal]
            simp
        | bool b =>
            rw [hak] at h
            simp only [Except.ok.injEq, Prod.mk.injEq] at h
            obtain ⟨ho, hpost⟩ := h
            subst ho
            subst hpost
            refine ⟨fun hc => by simp at hc, fun rec hrec => ?_⟩
            obtain rfl : _ = rec := by injection hrec
            rw [hal]
            simp
        | num q =>
            rw [hak] at h
            simp only [Except.ok.injEq, Prod.mk.injEq] at h
            obtain ⟨ho, hpost⟩ := h
            subst ho
            subst hpost
            refine ⟨fun hc => by simp at hc, fun rec hrec => ?_⟩
            obtain rfl : _ = rec := by injection hrec
            rw [hal]
            simp
        | str st =>
            rw [hak] at h
            simp only [Except.ok.injEq, Prod.mk.injEq] at h
            obtain ⟨ho, hpost⟩ := h
            subst ho
            subst hpost
            refine ⟨fun hc => by simp at hc, fun rec hrec => ?_⟩
            obtain rfl : _ = rec := by injection hrec
            rw [hal]
            simp
        | arr xs =>
            rw [hak] at h
            simp only [Except.ok.injEq, Prod.mk.injEq] at h
            obtain ⟨ho, hpost⟩ := h
            subst ho
            subst hpost
            refine ⟨fun hc => by simp at hc, fun rec hrec => ?_⟩
            obtain rfl : _ = rec := by injection hrec
            rw [hal]
            simp
        | tup xs =>
            rw [hak] at h
            simp only [Except.ok.injEq, Prod.mk.injEq] at h
            obtain ⟨ho, hpost⟩ := h
            subst ho
            subst hpost
            refine ⟨fun hc => by simp at hc, fun rec hrec => ?_⟩
            obtain rfl : _ = rec := by injection hrec
            rw [hal]
            simp
        | npArr t =>
            rw [hak] at h
            simp only [Except.ok.injEq, Prod.mk.injEq] at h
            obtain ⟨ho, hpost⟩ := h
            subst ho
            subst hpost
            refine ⟨fun hc => by simp at hc, fun rec hrec => ?_⟩
            obtain rfl : _ = rec := by injection hrec
            rw [hal]
            simp
        | npNum q =>
            rw [hak] at h
            simp only [Except.ok.injEq, Prod.mk.injEq] at h
            obtain ⟨ho, hpost⟩ := h
            subst ho
            subst hpost
            refine ⟨fun hc => by simp at hc, fun rec hrec => ?_⟩
            obtain rfl : _ = rec := by injection hrec
            rw [hal]
            simp
        | geom g =>
            rw [hak] at h
            simp only [Except.ok.injEq, Prod.mk.injEq] at h
            obtain ⟨ho, hpost⟩ := h
            subst ho
            subst hpost
            refine ⟨fun hc => by simp at hc, fun rec hrec => ?_⟩
            obtain rfl : _ = rec := by injection hrec
            rw [hal]
            simp
        | timestamp st =>
            rw [hak] at h
            simp only [Except.ok.injEq, Prod.mk.injEq] at h
            obtain ⟨ho, hpost⟩ := h
            subst ho
            subst hpost
            refine ⟨fun hc => by simp at hc, fun rec hrec => ?_⟩
            obtain rfl : _ = rec := by injection hrec
            rw [hal]
            simp
    | some v =>
        have hal : hasKey kvs "properties" = true := by
          cases hhk : hasKey kvs "properties"
          · rw [(hasKey_false_iff _ _).mp hhk] at hpv
            exact absurd hpv (by simp)
          · rfl
        rw [hpv] at h
        cases v with
        | obj pkvs =>
            simp only [except_bind_ok, hal, if_true] at h
            cases hak : pyGetD kvs "assets" (.obj []) with
            | obj akvs =>
                rw [hak] at h
                simp only [] at h
                by_cases hpu : prov = "umbra"
                · rw [if_pos hpu] at h
                  cases hloop : ardUmbraAssets url akvs (pyInsert (pyInsert (pyInsert pkvs
                      "geometry" (pyGetD kvs "geometry" .null))
                      "id" (pyGetD kvs "id" .null))
                      "stac_item_url" (.str url)) with
                  | error e => rw [hloop] at h; simp [except_bind_error] at h
                  | ok recF =>
                      rw [hloop] at h
                      simp only [except_bind_ok, Except.ok.injEq, Prod.mk.injEq] at h
                      obtain ⟨ho, hpost⟩ := h
                      subst ho
                      subst hpost
                      refine ⟨fun hc => by simp at hc, fun rec hrec => ?_⟩
                      obtain rfl : recF = rec := by injection hrec
                      rw [hal]
                      simp
                · rw [if_neg hpu] at h
                  cases hloop : ardDefaultAssets akvs (pyInsert (pyInsert (pyInsert pkvs
                      "geometry" (pyGetD kvs "geometry" .null))
                      "id" (pyGetD kvs "id" .null))
                      "stac_item_url" (.str url)) with
                  | error e => rw [hloop] at h; simp [except_bind_error] at h
                  | ok recF =>
                      rw [hloop] at h
                      simp only [except_bind_ok, Except.ok.injEq, Prod.mk.injEq] at h
                      obtain ⟨ho, hpost⟩ := h
                      subst ho
                      subst hpost
                      refine ⟨fun hc => by simp at hc, fun rec hrec => ?_⟩
                      obtain rfl : recF = rec := by injection hrec
                      rw [hal]
                      simp
            | null =>
                rw [hak] at h
                simp only [Except.ok.injEq, Prod.mk.injEq] at h
                obtain ⟨ho, hpost⟩ := h
                subst ho
                subst hpost
                refine ⟨fun hc => by simp at hc, fun rec hrec => ?_⟩
                obtain rfl : _ = rec := by injection hrec
                rw [hal]
                simp
            | bool b =>
                rw [hak] at h
                simp only [Except.ok.injEq, Prod.mk.injEq] at h
                obtain ⟨ho, hpost⟩ := h
                subst ho
                subst hpost
                refine ⟨fun hc => by simp at hc, fun rec hrec => ?_⟩
                obtain rfl : _ = rec := by injection hrec
                rw [hal]
                simp
            | num q =>
                rw [hak] at h
                simp only [Except.ok.injEq, Prod.mk.injEq] at h
                obtain ⟨ho, hpost⟩ := h
                subst ho
                subst hpost
                refine ⟨fun hc => by simp at hc, fun rec hrec => ?_⟩
                obtain rfl : _ = rec := by injection hrec
                rw [hal]
                simp
            | str st =>
                rw [hak] at h
                simp only [Except.ok.injEq, Prod.mk.injEq] at h
                obtain ⟨ho, hpost⟩ := h
                subst ho
                subst hpost
                refine ⟨fun hc => by simp at hc, fun rec hrec => ?_⟩
                obtain rfl : _ = rec := by injection hrec
                rw [hal]
                simp
            | arr xs =>
                rw [hak] at h
                simp only [Except.ok.injEq, Prod.mk.injEq] at h
                obtain ⟨ho, hpost⟩ := h
                subst ho
                subst hpost
                refine ⟨fun hc => by simp at hc, fun rec hrec => ?_⟩
                obtain rfl : _ = rec := by injection hrec
                rw [hal]
                simp
            | tup xs =>
                rw [hak] at h
                simp only [Except.ok.injEq, Prod.mk.injEq] at h
                obtain ⟨ho, hpost⟩ := h
                subst ho
                subst hpost
                refine ⟨fun hc => by simp at hc, fun rec hrec => ?_⟩
                obtain rfl : _ = rec := by injection hrec
                rw [hal]
                simp
            | npArr t =>
                rw [hak] at h
                simp only [Except.ok.injEq, Prod.mk.injEq] at h
                obtain ⟨ho, hpost⟩ := h
                subst ho
                subst hpost
                refine ⟨fun hc => by simp at hc, fun rec hrec => ?_⟩
                obtain rfl : _ = rec := by injection hrec
                rw [hal]
                simp
            | npNum q =>
                rw [hak] at h
                simp only [Except.ok.injEq, Prod.mk.injEq] at h
                obtain ⟨ho, hpost⟩ := h
                subst ho
                subst hpost
                refine ⟨fun hc => by simp at hc, fun rec hrec => ?_⟩
                obtain rfl : _ = rec := by injection hrec
                rw [hal]
                simp
            | geom g =>
                rw [hak] at h
                simp only [Except.ok.injEq, Prod.mk.injEq] at h
                obtain ⟨ho, hpost⟩ := h
                subst ho
                subst hpost
                refine ⟨fun hc => by simp at hc, fun rec hrec => ?_⟩
                obtain rfl : _ = rec := by injection hrec
                rw [hal]
                simp
            | timestamp st =>
                rw [hak] at h
                simp only [Except.ok.injEq, Prod.mk.injEq] at h
                obtain ⟨ho, hpost⟩ := h
                subst ho
                subst hpost
                refine ⟨fun hc => by simp at hc, fun rec hrec => ?_⟩
                obtain rfl : _ = rec := by injection hrec
                rw [hal]
                simp
        | null => simp [except_bind_error] at h
        | bool b => simp [except_bind_error] at h
        | num q => simp [except_bind_error] at h
        | str st => simp [except_bind_error] at h
        | arr xs => simp [except_bind_error] at h
        | tup xs => simp [except_bind_error] at h
        | npArr t => simp [except_bind_error] at h
        | npNum q => simp [except_bind_error] at h
        | geom g => simp [except_bind_error] at h
        | timestamp st => simp [except_bind_error] at h

theorem c8_witness :
    (.obj (pyInsert c8Kvs "properties" (.obj c8Rec)) : JValue)
      = .obj (if hasKey c8Kvs "properties" then pyInsert c8Kvs "properties" (.obj c8Rec)
              else c8Kvs) :=
  (c8_ard_mutates_aliased_properties (.obj c8Kvs) c8Kvs "https://x/item.json" "iceye"
    (some c8Rec) (.obj (pyInsert c8Kvs "properties" (.obj c8Rec))) rfl (by decide)).2
    c8Rec rfl

theorem firstMatchGo_str (t : String) :
    ∀ l : List (String × String), firstMatchGo (.str t) l = .ok (firstMatchStrGo t l) := by
  intro l
  induction l with
  | nil => rfl
  | cons p rest ih =>
      obtain ⟨pat, sfx⟩ := p
      simp only [firstMatchGo, pyInOpE, firstMatchStrGo, except_bind_ok]
      by_cases hc : strContains t pat = true
      · rw [if_pos hc, if_pos hc]
      · rw [if_neg hc, if_neg hc, ih]

theorem fixLoop_preserve (base pat key : String) :
    ∀ (rest : List (String × JValue)) (acc out : Record),
      (∀ p ∈ rest, p.1 ≠ key) →
      fixUmbraLoop base pat rest acc = .ok out →
      getVal out key = getVal acc key := by
  intro rest
  induction rest with
  | nil =>
      intro acc out _ h
      simp only [fixUmbraLoop, Except.ok.injEq] at h
      subst h
      rfl
  | cons p rs ih =>
      intro acc out hk h
      obtain ⟨k, v⟩ := p
      have hkne : key ≠ k := fun hh => hk (k, v) (List.mem_cons_self _ _) hh.symm
      have hkrs : ∀ p ∈ rs, p.1 ≠ key := fun p hp => hk p (List.mem_cons_of_mem _ hp)
      cases v with
      | obj okvs =>
          simp only [fixUmbraLoop] at h
          cases hm : firstMatchE (pyGetD okvs "title" (.str "")) with
          | error e => rw [hm] at h; simp [except_bind_error] at h
          | ok m =>
              rw [hm] at h
              simp only [except_bind_ok] at h
              cases m with
              | some sfx =>
                  simp only [] at h
                  rw [ih _ out hkrs h, getVal_pyInsert_other _ _ _ _ hkne]
              | none =>
                  simp only [] at h
                  exact ih acc out hkrs h
      | null => simp only [fixUmbraLoop] at h; exact ih acc out hkrs h
      | bool b => simp only [fixUmbraLoop] at h; exact ih acc out hkrs h
      | num q => simp only [fixUmbraLoop] at h; exact ih acc out hkrs h
      | str s => simp only [fixUmbraLoop] at h; exact ih acc out hkrs h
      | arr xs => simp only [fixUmbraLoop] at h; exact ih acc out hkrs h
      | tup xs => simp only [fixUmbraLoop] at h; exact ih acc out hkrs h
      | npArr tr => simp only [fixUmbraLoop] at h; exact ih acc out hkrs h
      | npNum q => simp only [fixUmbraLoop] at h; exact ih acc out hkrs h
      | geom g => simp only [fixUmbraLoop] at h; exact ih acc out hkrs h
      | timestamp s => simp only [fixUmbraLoop] at h; exact ih acc out hkrs h

theorem fixLoop_found (base pat key : String) (a : Record) (t : String)
    (ht : pyGetD a "title" (.str "") = .str t) :
    ∀ (assets : List (String × JValue)) (acc out : Record),
      (assets.map Prod.fst).Nodup →
      (key, .obj a) ∈ assets →
      getVal acc key = none →
      fixUmbraLoop base pat assets acc = .ok out →
      (∀ sfx, firstMatchStr t = some sfx → getVal out key =
        some (.obj [("href", .str (base ++ pat ++ sfx)),
                    ("type", pyGetD a "type" .null),
                    ("roles", normalize (pyGetD a "roles" .null)),
                    ("title", .str t)])) ∧
      (firstMatchStr t = none → getVal out key = none) := by
  intro assets
  induction assets with
  | nil =>
      intro acc out _ hmem
      simp at hmem
  | cons p rs ih =>
      intro acc out hnd hmem hacc h
      obtain ⟨k, v⟩ := p
      rw [List.map_cons, List.nodup_cons] at hnd
      obtain ⟨hknotin, hndrs⟩ := hnd
      by_cases hkey : k = key
      · subst hkey
        have hkrs : ∀ p ∈ rs, p.1 ≠ k := fun p hp hpk =>
          hknotin (List.mem_map.mpr ⟨p, hp, hpk⟩)
        have hv : v = .obj a := by
          rcases List.mem_cons.mp hmem with heq | hmemrs
          · simp only [Prod.mk.injEq] at heq
            exact heq.2.symm
          · exact absurd (List.mem_map.mpr ⟨(k, .obj a), hmemrs, rfl⟩) hknotin
        subst hv
        simp only [fixUmbraLoop] at h
        rw [ht] at h
        have hfm : firstMatchE (.str t) = .ok (firstMatchStr t) :=
          firstMatchGo_str t titleToSuffix
        rw [hfm] at h
        simp only [except_bind_ok] at h
        cases hm : firstMatchStr t with
        | some sfx =>
            rw [hm] at h
            simp only [] at h
            have hpres := fixLoop_preserve base pat k rs _ out hkrs h
            refine ⟨fun sfx' hs => ?_, fun hn => by cases hn⟩
            obtain rfl : sfx = sfx' := Option.some.inj hs
            rw [hpres, getVal_pyInsert_self]
        | none =>
            rw [hm] at h
            simp only [] at h
            have hpres := fixLoop_preserve base pat k rs acc out hkrs h
            exact ⟨fun sfx hs => (nomatch hs), fun _ => by rw [hpres, hacc]⟩
      · have hkne : key ≠ k := fun hh => hkey hh.symm
        have hmemrs : (key, .obj a) ∈ rs := by
          rcases List.mem_cons.mp hmem with heq | h'
          · simp only [Prod.mk.injEq] at heq
            exact absurd heq.1.symm hkey
          · exact h'
        cases v with
        | obj okvs =>
            simp only [fixUmbraLoop] at h
            cases hm : firstMatchE (pyGetD okvs "title" (.str "")) with
            | error e => rw [hm] at h; simp [except_bind_error] at h
            | ok m =>
                rw [hm] at h
                simp only [except_bind_ok] at h
                cases m with
                | some sfx =>
                    simp only [] at h
                    exact ih _ out hndrs hmemrs
                      (by rw [getVal_pyInsert_other _ _ _ _ hkne]; exact hacc) h
                | none =>
                    simp only [] at h
                    exact ih acc out hndrs hmemrs hacc h
        | null => simp only [fixUmbraLoop] at h; exact ih acc out hndrs hmemrs hacc h
        | bool b => simp only [fixUmbraLoop] at h; exact ih acc out hndrs hmemrs hacc h
        | num q => simp only [fixUmbraLoop] at h; exact ih acc out hndrs hmemrs hacc h
        | str s => simp only [fixUmbraLoop] at h; exact ih acc out hndrs hmemrs hacc h
        | arr xs => simp only [fixUmbraLoop] at h; exact ih acc out hndrs hmemrs hacc h
        | tup xs => simp only [fixUmbraLoop] at h; exact ih acc out hndrs hmemrs hacc h
        | npArr tr => simp only [fixUmbraLoop] at h; exact ih acc out hndrs hmemrs hacc h
        | npNum q => simp only [fixUmbraLoop] at h; exact ih acc out hndrs hmemrs hacc h
        | geom g => simp only [fixUmbraLoop] at h; exact ih acc out hndrs hmemrs hacc h
        | timestamp s => simp only [fixUmbraLoop] at h; exact ih acc out hndrs hmemrs hacc h

/-- Assets mapping used for the C6 witness. -/
def c6Assets : List (String × JValue) :=
  [("k1", .obj [("title", .str "CSI-SIDD product")]),
   ("k2", .obj [("title", .str "no match")])]

/-- Item URL used for the C6 witness. -/
def c6Url : String := "https://b/2025-06-22-23-57-52_UMBRA-10.stac.v2.json"

/-- The repaired assets mapping the umbra href fix produces from `c6Assets`. -/
def c6Out : Record :=
  [("k1", .obj [("href", .str "https://b/2025-06-22-23-57-52_UMBRA-10_CSI-SIDD.nitf"),
                ("type", .null), ("roles", .null), ("title", .str "CSI-SIDD product")])]

/-- C6: under the umbra href-repair rule, for an assets mapping with
distinct keys, a well-formed (dict-valued) asset whose title string matches
a pattern of the ordered title-substring table is emitted with href equal
to the item URL's directory joined with the filename stem (the last URL
segment with `.stac.v2.json` removed) plus the suffix of the first matching
pattern, with the asset's type, normalized roles and title carried over; an
asset whose title matches no pattern is absent from the output; and the
table is ordered with combined patterns first: any title containing
`CSI-SIDD` takes the `_CSI-SIDD.nitf` suffix, never the later `SIDD` one. -/
theorem c6_umbra_href_table (assets : List (String × JValue)) (url key : String)
    (a : Record) (t : String) (out : Record)
    (hnd : (assets.map Prod.fst).Nodup)
    (hmem : (key, .obj a) ∈ assets)
    (ht : pyGetD a "title" (.str "") = .str t)
    (hout : fixUmbraAssetHrefsE (.obj assets) url = .ok (.obj out)) :
    (∀ sfx, firstMatchStr t = some sfx → getVal out key =
      some (.obj [("href", .str (dirBase url ++
                     replaceSub (lastSeg url) ".stac.v2.json" "" ++ sfx)),
                  ("type", pyGetD a "type" .null),
                  ("roles", normalize (pyGetD a "roles" .null)),
                  ("title", .str t)])) ∧
    (firstMatchStr t = none → getVal out key = none) ∧
    (∀ s, strContains s "CSI-SIDD" = true → firstMatchStr s = some "_CSI-SIDD.nitf") := by
  simp only [fixUmbraAssetHrefsE] at hout
  cases hfix : fixUmbraLoop (dirBase url) (replaceSub (lastSeg url) ".stac.v2.json" "")
      assets [] with
  | error e => rw [hfix] at hout; simp [except_bind_error] at hout
  | ok fixed =>
      rw [hfix] at hout
      simp only [except_bind_ok, Except.ok.injEq, JValue.obj.injEq] at hout
      subst hout
      have hmain := fixLoop_found (dirBase url) (replaceSub (lastSeg url) ".stac.v2.json" "")
        key a t ht assets [] fixed hnd hmem rfl hfix
      refine ⟨hmain.1, hmain.2, fun s hs => ?_⟩
      simp only [firstMatchStr, titleToSuffix, firstMatchStrGo]
      rw [if_pos hs]

theorem c6_witness :
    getVal c6Out "k1" =
      some (.obj [("href", .str "https://b/2025-06-22-23-57-52_UMBRA-10_CSI-SIDD.nitf"),
                  ("type", .null), ("roles", .null), ("title", .str "CSI-SIDD product")]) ∧
    getVal c6Out "k2" = none ∧
    firstMatchStr "CSI-SIDD product" = some "_CSI-SIDD.nitf" :=
  ⟨(c6_umbra_href_table c6Assets c6Url "k1" [("title", .str "CSI-SIDD product")]
      "CSI-SIDD product" c6Out (by decide) (by decide) (by decide) (by decide)).1
      "_CSI-SIDD.nitf" (by decide),
   (c6_umbra_href_table c6Assets c6Url "k2" [("title", .str "no match")]
      "no match" c6Out (by decide) (by decide) (by decide) (by decide)).2.1 (by decide),
   (c6_umbra_href_table c6Assets c6Url "k1" [("title", .str "CSI-SIDD product")]
      "CSI-SIDD product" c6Out (by decide) (by decide) (by decide) (by decide)).2.2
      "CSI-SIDD product" (by decide)⟩

end SarStac
